import Mathlib

/-!
# primitiv: the operator / free-function layer of `node_ops.cc`

A shallow embedding of `src/primitiv/node_ops.cc`.  Every operator and every
`node_ops` function is a state-passing function over the step tables of the
live graphs.  A failing call (a C++ exception) is an `Except.error` paired with
the step tables as they are at the point of failure.

Conventions of the embedding:

* `float` / `double` scalars are exact rationals (`ℚ`) in the functions that
  build the graph; infinities and NaN are outside the model, and the rounding
  to `double` and `float` is modelled separately (`round_binary`) for the one
  line whose stored value depends on it (`normalize_scale_float`).
* the values of tensors, where a statement is about them, are real numbers.
* `unsigned` values are natural numbers; the source performs no `unsigned`
  arithmetic (`b - 1.` is a `double` subtraction), so nothing can wrap.
* `Graph *`, `Device *` and `Parameter *` are handles (natural numbers).
* where C++ leaves the evaluation order of the two operands of an operator
  unspecified and both operands append steps, the function takes a Boolean
  that says whether the left operand is evaluated first; theorems hold for
  both values.
-/

namespace primitiv

/-- Handle standing for a `Device *`. -/
abbrev Device := Nat

/-- Handle standing for a `Parameter *`. -/
abbrev ParameterPtr := Nat

/-- Handle standing for a `Graph *`. -/
abbrev GraphPtr := Nat

/-- Modelled from the spec: the `Shape` value type (shape.h is not part of the
source file): an ordered sequence of dimension sizes plus a batch
multiplicity. -/
structure Shape where
  dims : List Nat
  batch : Nat
deriving DecidableEq, Repr

/-- Modelled from the spec: `Shape::operator[]`; a dimension beyond the stored
ones has size 1 (trailing dimensions of size 1 are elided). -/
def Shape.get (s : Shape) (i : Nat) : Nat := s.dims.getD i 1

/-- Modelled from the spec: `Shape::batch_size()`, the batch multiplicity. -/
def Shape.batch_size (s : Shape) : Nat := s.batch

/-- Modelled from the spec: `Shape::has_batch()`; a multiplicity of 1 means
"no batching". -/
def Shape.has_batch (s : Shape) : Bool := decide (1 < s.batch)

/-- The primitive functions constructed by `node_ops.cc` (`new functions::…`),
each with the constructor arguments the source passes. -/
inductive Function where
  | Positive
  | Negative
  | AddConst (k : ℚ)
  | Add
  | SubtractConstR (k : ℚ)
  | SubtractConstL (k : ℚ)
  | Subtract
  | MultiplyConst (k : ℚ)
  | Multiply
  | DivideConstR (k : ℚ)
  | DivideConstL (k : ℚ)
  | Divide
  | Input (shape : Shape) (data : List ℚ) (dev : Device)
  | ParameterInput (param : ParameterPtr)
  | Copy (dev : Device)
  | Pick (dim : Nat) (ids : List Nat)
  | Slice (dim lower upper : Nat)
  | Transpose
  | Dot
  | Sqrt
  | Exp
  | Tanh
  | Sigmoid
  | ReLU
  | Sum (dim : Nat)
  | LogSumExp (dim : Nat)
  | Broadcast (dim size : Nat)
  | SoftmaxCrossEntropy (dim : Nat)
  | BatchSum
  | RandomBernoulli (shape : Shape) (p : ℚ) (dev : Device)
  | RandomUniform (shape : Shape) (lower upper : ℚ) (dev : Device)
  | RandomNormal (shape : Shape) (mean sd : ℚ) (dev : Device)
  | RandomLogNormal (shape : Shape) (mean sd : ℚ) (dev : Device)
deriving DecidableEq

/-- Modelled from the spec: the `Function` capability the layer calls into
(function_impl.h is not part of the source file).  `forward_shape` is the
shape-inference rule (`none` is a rejected combination); `get_device` resolves
the device a step lives on from the function and the devices of its inputs. -/
structure FunctionImpl where
  forward_shape : Function → List Shape → Option Shape
  get_device : Function → List Device → Device

/-- One performed step of a graph: the function, the identities of its input
steps, the cached output shape and the device it is resolved on. -/
structure Step where
  func : Function
  args : List Nat
  shape : Shape
  device : Device
deriving DecidableEq

/-- The step table of one graph, in creation order; a step's identity is its
position. -/
abbrev Graph := List Step

/-- The step tables of all graphs, by graph handle. -/
abbrev Heap := GraphPtr → Graph

/-- A `Node`: the handle of its graph and a step identity. -/
structure Node where
  graph : GraphPtr
  id : Nat
deriving DecidableEq, Repr

/-- The failure conditions of graph construction. -/
inductive Error where
  | ownershipViolation
  | shapeMismatch
deriving DecidableEq, Repr

/-- Appends the steps `ss` to the table of graph `g`; other graphs are
untouched. -/
def Heap.extend (h : Heap) (g : GraphPtr) (ss : List Step) : Heap :=
  fun g' => if g' = g then h g ++ ss else h g'

/-- A graph-building computation: from the step tables before the call to the
outcome and the step tables after it. -/
def M (α : Type) : Type := Heap → Except Error α × Heap

/-- A computation that returns `a` and appends nothing. -/
def M.pure {α : Type} (a : α) : M α := fun h => (Except.ok a, h)

/-- Sequencing; a failure stops the computation and keeps the tables as they
are at that point. -/
def M.bind {α β : Type} (m : M α) (f : α → M β) : M β := fun h =>
  match m h with
  | (Except.ok a, h1) => f a h1
  | (Except.error e, h1) => (Except.error e, h1)

instance : Monad M where
  pure := M.pure
  bind := M.bind

/-- Two operands whose relative evaluation order C++ leaves unspecified. -/
def unsequenced {α β : Type} (lhs_first : Bool) (a : M α) (b : M β) : M (α × β) :=
  if lhs_first then do
    let x ← a
    let y ← b
    pure (x, y)
  else do
    let y ← b
    let x ← a
    pure (x, y)

/-- The step a node refers to, seen from graph `g`: none when the node belongs
to another graph or its identity was not created by `g`. -/
def Node.lookup (h : Heap) (g : GraphPtr) (x : Node) : Option Step :=
  if x.graph = g then (h g)[x.id]? else none

/-- The steps of all nodes of `args`, or none when one of them is not a step
of graph `g`. -/
def gather (h : Heap) (g : GraphPtr) : List Node → Option (List Step)
  | [] => some []
  | x :: xs =>
    match x.lookup h g, gather h g xs with
    | some s, some ss => some (s :: ss)
    | _, _ => none

/-- The step recorded for function `f` applied to the input steps `ins`, whose
identities are `ids`, once the shape rule has resolved to `s`. -/
def FunctionImpl.new_step (F : FunctionImpl) (f : Function) (ids : List Nat) (ins : List Step)
    (s : Shape) : Step :=
  ⟨f, ids, s, F.get_device f (ins.map Step.device)⟩

/-- Modelled from the spec: `Graph::add_function` (graph.h / graph.cc are not
part of the source file).  Every input must be a step of this graph, else an
ownership violation; the function's shape rule is applied to the inputs'
shapes, a rejection being a shape mismatch; on success one step is appended
and the node bound to it is returned.  On failure nothing is appended. -/
def add_function (F : FunctionImpl) (g : GraphPtr) (f : Function) (args : List Node) : M Node :=
  fun h =>
    match gather h g args with
    | none => (Except.error Error.ownershipViolation, h)
    | some ins =>
      match F.forward_shape f (ins.map Step.shape) with
      | none => (Except.error Error.shapeMismatch, h)
      | some s =>
        (Except.ok ⟨g, (h g).length⟩, h.extend g [F.new_step f (args.map Node.id) ins s])

/-- Modelled from the spec: `Node::shape()`, the cached shape of the node's
step in its own graph; a node that is not a step of its graph is an ownership
violation. -/
def Node.shape (x : Node) : M Shape := fun h =>
  match x.lookup h x.graph with
  | some s => (Except.ok s.shape, h)
  | none => (Except.error Error.ownershipViolation, h)

/-- Modelled from the spec: `Node::device()`, the device of the node's step
in its own graph. -/
def Node.device (x : Node) : M Device := fun h =>
  match x.lookup h x.graph with
  | some s => (Except.ok s.device, h)
  | none => (Except.error Error.ownershipViolation, h)

/-! ## The operators (`node_ops.cc`, lines 13–26) -/

/-- Unary `+x`. -/
def operator_pos (F : FunctionImpl) (x : Node) : M Node :=
  add_function F x.graph Function.Positive [x]

/-- Unary `-x`. -/
def operator_neg (F : FunctionImpl) (x : Node) : M Node :=
  add_function F x.graph Function.Negative [x]

/-- The sum `x + k`. -/
def operator_add_node_const (F : FunctionImpl) (x : Node) (k : ℚ) : M Node :=
  add_function F x.graph (Function.AddConst k) [x]

/-- The sum `k + x`. -/
def operator_add_const_node (F : FunctionImpl) (k : ℚ) (x : Node) : M Node :=
  add_function F x.graph (Function.AddConst k) [x]

/-- The sum `a + b`. -/
def operator_add (F : FunctionImpl) (a b : Node) : M Node :=
  add_function F a.graph Function.Add [a, b]

/-- The difference `x - k`. -/
def operator_sub_node_const (F : FunctionImpl) (x : Node) (k : ℚ) : M Node :=
  add_function F x.graph (Function.SubtractConstR k) [x]

/-- The difference `k - x`. -/
def operator_sub_const_node (F : FunctionImpl) (k : ℚ) (x : Node) : M Node :=
  add_function F x.graph (Function.SubtractConstL k) [x]

/-- The difference `a - b`. -/
def operator_sub (F : FunctionImpl) (a b : Node) : M Node :=
  add_function F a.graph Function.Subtract [a, b]

/-- The product `x * k`. -/
def operator_mul_node_const (F : FunctionImpl) (x : Node) (k : ℚ) : M Node :=
  add_function F x.graph (Function.MultiplyConst k) [x]

/-- The product `k * x`. -/
def operator_mul_const_node (F : FunctionImpl) (k : ℚ) (x : Node) : M Node :=
  add_function F x.graph (Function.MultiplyConst k) [x]

/-- The product `a * b`. -/
def operator_mul (F : FunctionImpl) (a b : Node) : M Node :=
  add_function F a.graph Function.Multiply [a, b]

/-- The quotient `x / k`. -/
def operator_div_node_const (F : FunctionImpl) (x : Node) (k : ℚ) : M Node :=
  add_function F x.graph (Function.DivideConstR k) [x]

/-- The quotient `k / x`. -/
def operator_div_const_node (F : FunctionImpl) (k : ℚ) (x : Node) : M Node :=
  add_function F x.graph (Function.DivideConstL k) [x]

/-- The quotient `a / b`. -/
def operator_div (F : FunctionImpl) (a b : Node) : M Node :=
  add_function F a.graph Function.Divide [a, b]

namespace node_ops

/-! ## Sources and single-primitive functions (lines 30–80, 86–88, 98–104) -/

/-- Source node bound to a caller-supplied value buffer. -/
def input (F : FunctionImpl) (shape : Shape) (data : List ℚ) (dev : Device) (g : GraphPtr) :
    M Node :=
  add_function F g (Function.Input shape data dev) []

/-- Source node bound to a parameter. -/
def input_parameter (F : FunctionImpl) (param : ParameterPtr) (g : GraphPtr) : M Node :=
  add_function F g (Function.ParameterInput param) []

/-- Device transfer. -/
def copy (F : FunctionImpl) (x : Node) (dev : Device) : M Node :=
  add_function F x.graph (Function.Copy dev) [x]

/-- Picks the entries `ids` along `dim`. -/
def pick (F : FunctionImpl) (x : Node) (dim : Nat) (ids : List Nat) : M Node :=
  add_function F x.graph (Function.Pick dim ids) [x]

/-- Slice `[lower, upper)` along `dim`. -/
def slice (F : FunctionImpl) (x : Node) (dim lower upper : Nat) : M Node :=
  add_function F x.graph (Function.Slice dim lower upper) [x]

/-- Matrix transpose. -/
def transpose (F : FunctionImpl) (x : Node) : M Node :=
  add_function F x.graph Function.Transpose [x]

/-- Matrix product. -/
def dot (F : FunctionImpl) (a b : Node) : M Node :=
  add_function F a.graph Function.Dot [a, b]

/-- Elementwise square root. -/
def sqrt (F : FunctionImpl) (x : Node) : M Node :=
  add_function F x.graph Function.Sqrt [x]

/-- Elementwise exponential. -/
def exp (F : FunctionImpl) (x : Node) : M Node :=
  add_function F x.graph Function.Exp [x]

/-- Elementwise hyperbolic tangent. -/
def tanh (F : FunctionImpl) (x : Node) : M Node :=
  add_function F x.graph Function.Tanh [x]

/-- Elementwise logistic sigmoid. -/
def sigmoid (F : FunctionImpl) (x : Node) : M Node :=
  add_function F x.graph Function.Sigmoid [x]

/-- Elementwise rectifier. -/
def relu (F : FunctionImpl) (x : Node) : M Node :=
  add_function F x.graph Function.ReLU [x]

/-- Sum along `dim`. -/
def sum (F : FunctionImpl) (x : Node) (dim : Nat) : M Node :=
  add_function F x.graph (Function.Sum dim) [x]

/-- Log-sum-exp along `dim`. -/
def logsumexp (F : FunctionImpl) (x : Node) (dim : Nat) : M Node :=
  add_function F x.graph (Function.LogSumExp dim) [x]

/-- Broadcast of dimension `dim` to `size`. -/
def broadcast (F : FunctionImpl) (x : Node) (dim size : Nat) : M Node :=
  add_function F x.graph (Function.Broadcast dim size) [x]

/-- Dense-target softmax cross entropy (the overload taking two nodes). -/
def softmax_cross_entropy_dense (F : FunctionImpl) (x t : Node) (dim : Nat) : M Node :=
  add_function F x.graph (Function.SoftmaxCrossEntropy dim) [x, t]

namespace random

/-- Bernoulli source (lines 140–142). -/
def bernoulli (F : FunctionImpl) (shape : Shape) (p : ℚ) (dev : Device) (g : GraphPtr) : M Node :=
  add_function F g (Function.RandomBernoulli shape p dev) []

/-- Uniform source (lines 144–146). -/
def uniform (F : FunctionImpl) (shape : Shape) (lower upper : ℚ) (dev : Device) (g : GraphPtr) :
    M Node :=
  add_function F g (Function.RandomUniform shape lower upper dev) []

/-- Normal source (lines 148–150). -/
def normal (F : FunctionImpl) (shape : Shape) (mean sd : ℚ) (dev : Device) (g : GraphPtr) :
    M Node :=
  add_function F g (Function.RandomNormal shape mean sd dev) []

/-- Log-normal source (lines 152–154). -/
def log_normal (F : FunctionImpl) (shape : Shape) (mean sd : ℚ) (dev : Device) (g : GraphPtr) :
    M Node :=
  add_function F g (Function.RandomLogNormal shape mean sd dev) []

end random

/-! ## Composite functions (lines 82–84, 90–96, 106–115) -/

/-- Line 83: `(1. / x.shape()[dim]) * sum(x, dim)`.  The shape query appends
nothing, so its position relative to `sum` does not matter. -/
def mean (F : FunctionImpl) (x : Node) (dim : Nat) : M Node := do
  let s ← x.shape
  let y ← sum F x dim
  operator_mul_const_node F (1 / (s.get dim : ℚ)) y

/-- Line 91: `x - broadcast(logsumexp(x, dim), dim, x.shape()[dim])`. -/
def log_softmax (F : FunctionImpl) (x : Node) (dim : Nat) : M Node := do
  let s ← x.shape
  let l ← logsumexp F x dim
  let b ← broadcast F l dim (s.get dim)
  operator_sub F x b

/-- Line 95: `exp(log_softmax(x, dim))`. -/
def softmax (F : FunctionImpl) (x : Node) (dim : Nat) : M Node := do
  let y ← log_softmax F x dim
  exp F y

/-- Line 107: `pick(-log_softmax(x, dim), dim, ids)`, the overload with sparse
integer targets. -/
def softmax_cross_entropy (F : FunctionImpl) (x : Node) (dim : Nat) (ids : List Nat) : M Node := do
  let y ← log_softmax F x dim
  let n ← operator_neg F y
  pick F n dim ids

/-- Lines 110–115.  In `(1. / p) * x * random::bernoulli(…)` the scaled input
and the Bernoulli source are the two operands of the outer `*`. -/
def dropout (F : FunctionImpl) (lhs_first : Bool) (x : Node) (rate : ℚ) (enabled : Bool) :
    M Node :=
  if !enabled then pure x
  else if rate = 1 then operator_mul_const_node F 0 x
  else
    let p : ℚ := 1 - rate
    do
      let (a, b) ← unsequenced lhs_first
        (operator_mul_const_node F (1 / p) x)
        (do
          let s ← x.shape
          let d ← x.device
          random.bernoulli F s p d x.graph)
      operator_mul F a b

namespace batch

/-- Lines 119–121. -/
def sum (F : FunctionImpl) (x : Node) : M Node :=
  add_function F x.graph Function.BatchSum [x]

/-- Line 124: `(1. / x.shape().batch_size()) * sum(x)`. -/
def mean (F : FunctionImpl) (x : Node) : M Node := do
  let s ← x.shape
  let y ← sum F x
  operator_mul_const_node F (1 / (s.batch_size : ℚ)) y

/-- Lines 127–134.  `sub_lhs_first` orders the operands of
`mean(x * x) - m * m`, `div_lhs_first` those of `(x - m) / sqrt(v + 1e-8)`. -/
def normalize (F : FunctionImpl) (sub_lhs_first div_lhs_first : Bool) (x : Node) : M Node := do
  let s ← x.shape
  if !s.has_batch then pure x
  else do
    let s' ← x.shape
    let b : Nat := s'.batch_size
    let scale : ℚ := (b : ℚ) / ((b : ℚ) - 1)
    let m ← mean F x
    let (q, mm) ← unsequenced sub_lhs_first
      (do
        let xx ← operator_mul F x x
        mean F xx)
      (operator_mul F m m)
    let d ← operator_sub F q mm
    let v ← operator_mul_const_node F scale d
    let (num, den) ← unsequenced div_lhs_first
      (operator_sub F x m)
      (do
        let e ← operator_add_node_const F v (1 / 100000000)
        sqrt F e)
    operator_div F num den

end batch

end node_ops

/-! ## A reference implementation of the `Function` capability -/

/-- Modelled from the spec: two shapes have the same dimensions when every
dimension has the same size in both, a dimension absent from one of them
counting as size 1. -/
def Shape.same_dims (a b : Shape) : Bool :=
  (List.range (max a.dims.length b.dims.length)).all fun i => decide (a.get i = b.get i)

/-- Modelled from the spec: the elementwise rule of the binary primitives;
the non-batch dimensions must match exactly or be absent, and the batch
multiplicity broadcasts between 1 and N. -/
def Shape.elementwise (a b : Shape) : Option Shape :=
  if a.same_dims b = true ∧ (a.batch = b.batch ∨ a.batch = 1 ∨ b.batch = 1) then
    some ⟨if b.dims.length ≤ a.dims.length then a.dims else b.dims, max a.batch b.batch⟩
  else none

/-- Modelled from the spec: a shape with dimension `dim` set to `size`; a
dimension index outside the operand's rank is rejected. -/
def Shape.resize_dim (s : Shape) (dim size : Nat) : Option Shape :=
  if dim < s.dims.length then some ⟨s.dims.set dim size, s.batch⟩ else none

/-- Modelled from the spec: shape rules of the primitives (function_impl.cc is
not part of the source file).  The spec fixes the arities, the rejections and
that elementwise and constant primitives keep the shape; the output shapes of
`Pick`, `Slice`, `Transpose`, `Dot` and `SoftmaxCrossEntropy` follow the usual
meaning of these operations.  `params` gives the shape of each parameter. -/
def spec_forward_shape (params : ParameterPtr → Shape) : Function → List Shape → Option Shape
  | Function.Positive, [s] => some s
  | Function.Negative, [s] => some s
  | Function.AddConst _, [s] => some s
  | Function.SubtractConstR _, [s] => some s
  | Function.SubtractConstL _, [s] => some s
  | Function.MultiplyConst _, [s] => some s
  | Function.DivideConstR _, [s] => some s
  | Function.DivideConstL _, [s] => some s
  | Function.Sqrt, [s] => some s
  | Function.Exp, [s] => some s
  | Function.Tanh, [s] => some s
  | Function.Sigmoid, [s] => some s
  | Function.ReLU, [s] => some s
  | Function.Copy _, [s] => some s
  | Function.Add, [a, b] => a.elementwise b
  | Function.Subtract, [a, b] => a.elementwise b
  | Function.Multiply, [a, b] => a.elementwise b
  | Function.Divide, [a, b] => a.elementwise b
  | Function.Input shape _ _, [] => some shape
  | Function.ParameterInput param, [] => some (params param)
  | Function.RandomBernoulli shape _ _, [] => some shape
  | Function.RandomUniform shape _ _ _, [] => some shape
  | Function.RandomNormal shape _ _ _, [] => some shape
  | Function.RandomLogNormal shape _ _ _, [] => some shape
  | Function.Sum dim, [s] => s.resize_dim dim 1
  | Function.LogSumExp dim, [s] => s.resize_dim dim 1
  | Function.Broadcast dim size, [s] =>
    if s.get dim = 1 then s.resize_dim dim size else none
  | Function.BatchSum, [s] => some ⟨s.dims, 1⟩
  | Function.Pick dim ids, [s] =>
    if (ids.all fun i => decide (i < s.get dim))
        ∧ (s.batch = ids.length ∨ s.batch = 1 ∨ ids.length = 1) then
      (s.resize_dim dim 1).map fun r => ⟨r.dims, max s.batch ids.length⟩
    else none
  | Function.Slice dim lower upper, [s] =>
    if lower < upper ∧ upper ≤ s.get dim then s.resize_dim dim (upper - lower) else none
  | Function.Transpose, [s] =>
    if s.dims.length ≤ 2 then some ⟨[s.get 1, s.get 0], s.batch⟩ else none
  | Function.Dot, [a, b] =>
    if a.dims.length ≤ 2 ∧ b.dims.length ≤ 2 ∧ a.get 1 = b.get 0
        ∧ (a.batch = b.batch ∨ a.batch = 1 ∨ b.batch = 1) then
      some ⟨[a.get 0, b.get 1], max a.batch b.batch⟩
    else none
  | Function.SoftmaxCrossEntropy dim, [x, t] =>
    (x.elementwise t).bind fun s => s.resize_dim dim 1
  | _, _ => none

/-- Modelled from the spec: device resolution.  A source or copy step lives on
the device handed to its function (`param_device` for a parameter), any other
step on the device of its first input. -/
def spec_get_device (param_device : ParameterPtr → Device) : Function → List Device → Device
  | Function.Input _ _ dev, _ => dev
  | Function.ParameterInput param, _ => param_device param
  | Function.Copy dev, _ => dev
  | Function.RandomBernoulli _ _ dev, _ => dev
  | Function.RandomUniform _ _ _ dev, _ => dev
  | Function.RandomNormal _ _ _ dev, _ => dev
  | Function.RandomLogNormal _ _ _ dev, _ => dev
  | _, devs => devs.headD 0

/-- The reference implementation, with no parameters registered. -/
def spec_impl : FunctionImpl where
  forward_shape := spec_forward_shape fun _ => ⟨[], 1⟩
  get_device := spec_get_device fun _ => 0

/-- Modelled from the spec: the meaning of the constant-multiply primitive on
the values of a tensor: every element is multiplied by the constant. -/
def multiply_const_forward (k : ℚ) (v : List ℚ) : List ℚ := v.map fun a => k * a

/-- The composition the spec gives for the sparse-target cross entropy,
`pick(−log_softmax(x, dim), dim, ids)`, written out primitive by primitive
with the spec's rule `x − broadcast(logsumexp(x, dim), dim, size_of(dim))` for
`log_softmax`. -/
def spec_pick_neg_log_softmax (F : FunctionImpl) (x : Node) (dim : Nat) (ids : List Nat) :
    M Node := do
  let s ← x.shape
  let l ← add_function F x.graph (Function.LogSumExp dim) [x]
  let b ← add_function F l.graph (Function.Broadcast dim (s.get dim)) [l]
  let d ← add_function F x.graph Function.Subtract [x, b]
  let n ← add_function F d.graph Function.Negative [d]
  add_function F n.graph (Function.Pick dim ids) [n]

/-- The divisor of the division `1. / p` on line 114 that a call of `dropout`
performs, or none when the call returns on line 111 or 112, before `p` is
computed. -/
def dropout_divisor (rate : ℚ) (enabled : Bool) : Option ℚ :=
  if !enabled then none
  else if rate = 1 then none
  else some (1 - rate)

/-- The part of `dropout` after line 113, as a function of the value `p`. -/
def dropout_scaled_mask (F : FunctionImpl) (lhs_first : Bool) (x : Node) (p : ℚ) : M Node := do
  let (a, b) ← unsequenced lhs_first
    (operator_mul_const_node F (1 / p) x)
    (do
      let s ← x.shape
      let d ← x.device
      node_ops.random.bernoulli F s p d x.graph)
  operator_mul F a b

/-! ## Calls and the graph invariants -/

/-- A call of one of the operators or `node_ops` functions of the file, with
its arguments. -/
inductive Call where
  | pos (x : Node)
  | neg (x : Node)
  | add_node_const (x : Node) (k : ℚ)
  | add_const_node (k : ℚ) (x : Node)
  | add (a b : Node)
  | sub_node_const (x : Node) (k : ℚ)
  | sub_const_node (k : ℚ) (x : Node)
  | sub (a b : Node)
  | mul_node_const (x : Node) (k : ℚ)
  | mul_const_node (k : ℚ) (x : Node)
  | mul (a b : Node)
  | div_node_const (x : Node) (k : ℚ)
  | div_const_node (k : ℚ) (x : Node)
  | div (a b : Node)
  | input (shape : Shape) (data : List ℚ) (dev : Device) (g : GraphPtr)
  | input_parameter (param : ParameterPtr) (g : GraphPtr)
  | copy (x : Node) (dev : Device)
  | pick (x : Node) (dim : Nat) (ids : List Nat)
  | slice (x : Node) (dim lower upper : Nat)
  | transpose (x : Node)
  | dot (a b : Node)
  | sqrt (x : Node)
  | exp (x : Node)
  | tanh (x : Node)
  | sigmoid (x : Node)
  | relu (x : Node)
  | sum (x : Node) (dim : Nat)
  | mean (x : Node) (dim : Nat)
  | logsumexp (x : Node) (dim : Nat)
  | log_softmax (x : Node) (dim : Nat)
  | softmax (x : Node) (dim : Nat)
  | broadcast (x : Node) (dim size : Nat)
  | softmax_cross_entropy_dense (x t : Node) (dim : Nat)
  | softmax_cross_entropy (x : Node) (dim : Nat) (ids : List Nat)
  | dropout (lhs_first : Bool) (x : Node) (rate : ℚ) (enabled : Bool)
  | batch_sum (x : Node)
  | batch_mean (x : Node)
  | batch_normalize (sub_lhs_first div_lhs_first : Bool) (x : Node)
  | bernoulli (shape : Shape) (p : ℚ) (dev : Device) (g : GraphPtr)
  | uniform (shape : Shape) (lower upper : ℚ) (dev : Device) (g : GraphPtr)
  | normal (shape : Shape) (mean sd : ℚ) (dev : Device) (g : GraphPtr)
  | log_normal (shape : Shape) (mean sd : ℚ) (dev : Device) (g : GraphPtr)

/-- The function of the file a call stands for. -/
def Call.run (F : FunctionImpl) : Call → M Node
  | Call.pos x => operator_pos F x
  | Call.neg x => operator_neg F x
  | Call.add_node_const x k => operator_add_node_const F x k
  | Call.add_const_node k x => operator_add_const_node F k x
  | Call.add a b => operator_add F a b
  | Call.sub_node_const x k => operator_sub_node_const F x k
  | Call.sub_const_node k x => operator_sub_const_node F k x
  | Call.sub a b => operator_sub F a b
  | Call.mul_node_const x k => operator_mul_node_const F x k
  | Call.mul_const_node k x => operator_mul_const_node F k x
  | Call.mul a b => operator_mul F a b
  | Call.div_node_const x k => operator_div_node_const F x k
  | Call.div_const_node k x => operator_div_const_node F k x
  | Call.div a b => operator_div F a b
  | Call.input shape data dev g => node_ops.input F shape data dev g
  | Call.input_parameter param g => node_ops.input_parameter F param g
  | Call.copy x dev => node_ops.copy F x dev
  | Call.pick x dim ids => node_ops.pick F x dim ids
  | Call.slice x dim lower upper => node_ops.slice F x dim lower upper
  | Call.transpose x => node_ops.transpose F x
  | Call.dot a b => node_ops.dot F a b
  | Call.sqrt x => node_ops.sqrt F x
  | Call.exp x => node_ops.exp F x
  | Call.tanh x => node_ops.tanh F x
  | Call.sigmoid x => node_ops.sigmoid F x
  | Call.relu x => node_ops.relu F x
  | Call.sum x dim => node_ops.sum F x dim
  | Call.mean x dim => node_ops.mean F x dim
  | Call.logsumexp x dim => node_ops.logsumexp F x dim
  | Call.log_softmax x dim => node_ops.log_softmax F x dim
  | Call.softmax x dim => node_ops.softmax F x dim
  | Call.broadcast x dim size => node_ops.broadcast F x dim size
  | Call.softmax_cross_entropy_dense x t dim => node_ops.softmax_cross_entropy_dense F x t dim
  | Call.softmax_cross_entropy x dim ids => node_ops.softmax_cross_entropy F x dim ids
  | Call.dropout lhs_first x rate enabled => node_ops.dropout F lhs_first x rate enabled
  | Call.batch_sum x => node_ops.batch.sum F x
  | Call.batch_mean x => node_ops.batch.mean F x
  | Call.batch_normalize o1 o2 x => node_ops.batch.normalize F o1 o2 x
  | Call.bernoulli shape p dev g => node_ops.random.bernoulli F shape p dev g
  | Call.uniform shape lower upper dev g => node_ops.random.uniform F shape lower upper dev g
  | Call.normal shape mu sd dev g => node_ops.random.normal F shape mu sd dev g
  | Call.log_normal shape mu sd dev g => node_ops.random.log_normal F shape mu sd dev g

/-- The graph a call works on: the graph of its first node argument, or the
graph passed explicitly to a source function. -/
def Call.graph : Call → GraphPtr
  | Call.pos x => x.graph
  | Call.neg x => x.graph
  | Call.add_node_const x _ => x.graph
  | Call.add_const_node _ x => x.graph
  | Call.add a _ => a.graph
  | Call.sub_node_const x _ => x.graph
  | Call.sub_const_node _ x => x.graph
  | Call.sub a _ => a.graph
  | Call.mul_node_const x _ => x.graph
  | Call.mul_const_node _ x => x.graph
  | Call.mul a _ => a.graph
  | Call.div_node_const x _ => x.graph
  | Call.div_const_node _ x => x.graph
  | Call.div a _ => a.graph
  | Call.input _ _ _ g => g
  | Call.input_parameter _ g => g
  | Call.copy x _ => x.graph
  | Call.pick x _ _ => x.graph
  | Call.slice x _ _ _ => x.graph
  | Call.transpose x => x.graph
  | Call.dot a _ => a.graph
  | Call.sqrt x => x.graph
  | Call.exp x => x.graph
  | Call.tanh x => x.graph
  | Call.sigmoid x => x.graph
  | Call.relu x => x.graph
  | Call.sum x _ => x.graph
  | Call.mean x _ => x.graph
  | Call.logsumexp x _ => x.graph
  | Call.log_softmax x _ => x.graph
  | Call.softmax x _ => x.graph
  | Call.broadcast x _ _ => x.graph
  | Call.softmax_cross_entropy_dense x _ _ => x.graph
  | Call.softmax_cross_entropy x _ _ => x.graph
  | Call.dropout _ x _ _ => x.graph
  | Call.batch_sum x => x.graph
  | Call.batch_mean x => x.graph
  | Call.batch_normalize _ _ x => x.graph
  | Call.bernoulli _ _ _ g => g
  | Call.uniform _ _ _ _ g => g
  | Call.normal _ _ _ _ g => g
  | Call.log_normal _ _ _ _ g => g

/-- Every input of each of the steps `ss`, appended to a table that held `n`
steps, has a step identity smaller than the identity of the step itself. -/
def InputsPrecede (n : Nat) (ss : List Step) : Prop :=
  ∀ (j : Nat) (s : Step), ss[j]? = some s → ∀ i ∈ s.args, i < n + j

/-- A successful run of `m` only appends steps to graph `g`, each with
earlier inputs, and its result satisfies `P`. -/
def Extends {α : Type} (g : GraphPtr) (P : α → Prop) (m : M α) : Prop :=
  ∀ (h : Heap) (a : α) (h' : Heap), m h = (Except.ok a, h') →
    ∃ ss : List Step, h' = h.extend g ss ∧ InputsPrecede (h g).length ss ∧ P a

/-- A successful run of `m` appends at least one step to graph `g`, each
with earlier inputs, and returns the node of the last one. -/
def Builds (g : GraphPtr) (m : M Node) : Prop :=
  ∀ (h : Heap) (a : Node) (h' : Heap), m h = (Except.ok a, h') →
    ∃ ss : List Step, ss ≠ [] ∧ h' = h.extend g ss ∧ InputsPrecede (h g).length ss
      ∧ a = ⟨g, (h g).length + ss.length - 1⟩

/-- A successful run of `m` appends steps to graph `g` only, each with
earlier inputs, and when it appends any it returns the node of the last. -/
def KeepsInvariant (g : GraphPtr) (m : M Node) : Prop :=
  ∀ (h : Heap) (a : Node) (h' : Heap), m h = (Except.ok a, h') →
    ∃ ss : List Step, h' = h.extend g ss ∧ InputsPrecede (h g).length ss
      ∧ (ss ≠ [] → a = ⟨g, (h g).length + ss.length - 1⟩ ∧ a.id + 1 = (h' g).length)

/-! ## The meaning of the primitives over the reals -/

/-- The position of an element of a tensor: its index along every dimension. -/
abbrev Index := Nat → Nat

/-- The position `i` with the index along dimension `dim` replaced by `j`. -/
def Index.set (i : Index) (dim j : Nat) : Index := fun d => if d = dim then j else i d

/-- The value of a tensor over the reals: the element of sample `b` at
position `i`.  A tensor without batch has the same value at every sample
index, so that the batch broadcast of the elementwise primitives is the
pointwise operation. -/
abbrev Value := Nat → Index → ℝ

/-- Modelled from the spec: the mathematical meaning of the primitives (their
kernels are not part of the source file).  `ins` holds the shape and the value
of every input, `src` is the value bound to a source step (its data, parameter
or random draw).  Constants are the rationals of the function read as reals;
`LogSumExp` is the logarithm of the sum of exponentials along the dimension,
`BatchSum` the sum over the samples of the batch. -/
noncomputable def Function.forward (src : Value) : Function → List (Shape × Value) → Value
  | Function.Positive, [(_, x)] => x
  | Function.Negative, [(_, x)] => fun b i => -x b i
  | Function.AddConst k, [(_, x)] => fun b i => x b i + (k : ℝ)
  | Function.SubtractConstR k, [(_, x)] => fun b i => x b i - (k : ℝ)
  | Function.SubtractConstL k, [(_, x)] => fun b i => (k : ℝ) - x b i
  | Function.MultiplyConst k, [(_, x)] => fun b i => (k : ℝ) * x b i
  | Function.DivideConstR k, [(_, x)] => fun b i => x b i / (k : ℝ)
  | Function.DivideConstL k, [(_, x)] => fun b i => (k : ℝ) / x b i
  | Function.Add, [(_, x), (_, y)] => fun b i => x b i + y b i
  | Function.Subtract, [(_, x), (_, y)] => fun b i => x b i - y b i
  | Function.Multiply, [(_, x), (_, y)] => fun b i => x b i * y b i
  | Function.Divide, [(_, x), (_, y)] => fun b i => x b i / y b i
  | Function.Sqrt, [(_, x)] => fun b i => Real.sqrt (x b i)
  | Function.Exp, [(_, x)] => fun b i => Real.exp (x b i)
  | Function.Tanh, [(_, x)] => fun b i => Real.tanh (x b i)
  | Function.Sigmoid, [(_, x)] => fun b i => 1 / (1 + Real.exp (-x b i))
  | Function.ReLU, [(_, x)] => fun b i => max (x b i) 0
  | Function.Copy _, [(_, x)] => x
  | Function.Sum dim, [(s, x)] => fun b i =>
    ∑ j in Finset.range (s.get dim), x b (i.set dim j)
  | Function.LogSumExp dim, [(s, x)] => fun b i =>
    Real.log (∑ j in Finset.range (s.get dim), Real.exp (x b (i.set dim j)))
  | Function.Broadcast dim _, [(_, x)] => fun b i => x b (i.set dim 0)
  | Function.BatchSum, [(s, x)] => fun _ i => ∑ b in Finset.range s.batch_size, x b i
  | Function.Pick dim ids, [(_, x)] => fun b i =>
    x b (i.set dim (ids.getD (if ids.length = 1 then 0 else b) 0))
  | Function.Slice dim lower _, [(_, x)] => fun b i => x b (i.set dim (i dim + lower))
  | Function.Transpose, [(_, x)] => fun b i => x b ((i.set 0 (i 1)).set 1 (i 0))
  | Function.Dot, [(s, x), (_, y)] => fun b i =>
    ∑ k in Finset.range (s.get 1), x b (i.set 1 k) * y b (i.set 0 k)
  | Function.SoftmaxCrossEntropy dim, [(s, x), (_, t)] => fun b i =>
    -∑ j in Finset.range (s.get dim),
      t b (i.set dim j) *
        (x b (i.set dim j)
          - Real.log (∑ k in Finset.range (s.get dim), Real.exp (x b (i.set dim k))))
  | Function.Input _ _ _, [] => src
  | Function.ParameterInput _, [] => src
  | Function.RandomBernoulli _ _ _, [] => src
  | Function.RandomUniform _ _ _ _, [] => src
  | Function.RandomNormal _ _ _ _, [] => src
  | Function.RandomLogNormal _ _ _ _, [] => src
  | _, _ => fun _ _ => 0

/-- The shapes and values of the steps `todo`, evaluated in creation order
after steps whose shapes and values are `done`; `src k` is the value bound to
the source step with identity `k`. -/
noncomputable def eval_steps (src : Nat → Value) :
    List (Shape × Value) → List Step → List (Shape × Value)
  | done, [] => done
  | done, s :: rest =>
    eval_steps src
      (done ++
        [(s.shape,
          s.func.forward (src done.length)
            (s.args.map fun k => done.getD k (⟨[], 1⟩, fun _ _ => 0)))])
      rest

/-- The value of the node a computation returns: the steps it appends to
graph `g` are evaluated after the earlier steps, whose shapes and values are
`earlier`.  A failing computation has the zero value. -/
noncomputable def value_of (src : Nat → Value) (earlier : List (Shape × Value)) (m : M Node)
    (h : Heap) (g : GraphPtr) : Value :=
  match m h with
  | (Except.ok a, h') =>
    ((eval_steps src earlier ((h' g).drop (h g).length)).getD a.id (⟨[], 1⟩, fun _ _ => 0)).2
  | (Except.error _, _) => fun _ _ => 0

/-- The mean over the `B` samples of a batch, at position `i`. -/
noncomputable def batch_mean (B : Nat) (y : Value) (i : Index) : ℝ :=
  (∑ b in Finset.range B, y b i) / (B : ℝ)

/-- Modelled from the spec: the values a draw of a Bernoulli source with
probability `p` can take: 1 only when `p > 0`, 0 only when `p < 1`. -/
def bernoulli_draw (p : ℚ) (v : ℝ) : Prop := (v = 1 ∧ 0 < p) ∨ (v = 0 ∧ p < 1)

/-! ## Concrete graphs used to instantiate the theorems -/

/-- A 2×3 input with batch multiplicity 2 on device 0. -/
def sample_input : Step :=
  ⟨Function.Input ⟨[2, 3], 2⟩ [1, 2, 3, 4, 5, 6, 6, 5, 4, 3, 2, 1] 0, [], ⟨[2, 3], 2⟩, 0⟩

/-- A 2×3 input without batch on device 0. -/
def sample_input_single : Step :=
  ⟨Function.Input ⟨[2, 3], 1⟩ [1, 2, 3, 4, 5, 6] 0, [], ⟨[2, 3], 1⟩, 0⟩

/-- Graph 0 holds the batched input as its only step; all other graphs are empty. -/
def sample_heap : Heap := fun g => if g = 0 then [sample_input] else []

/-- Graph 0 holds the unbatched input as its only step. -/
def sample_heap_single : Heap := fun g => if g = 0 then [sample_input_single] else []

/-- The node of step 0 of graph 0. -/
def sample_node : Node := ⟨0, 0⟩

/-- Two samples that differ: every element of sample `b` is `b`. -/
noncomputable def ramp_samples : Value := fun b _ => (b : ℝ)

/-- Draws that are 1 everywhere, for every source step. -/
noncomputable def all_ones : Nat → Value := fun _ _ _ => 1

/-! ## Binary floating point -/

/-- The integer nearest to `q`, a tie going to the even one. -/
def round_half_even (q : ℚ) : ℤ :=
  if q - ⌊q⌋ < 1 / 2 then ⌊q⌋
  else if 1 / 2 < q - ⌊q⌋ then ⌊q⌋ + 1
  else if ⌊q⌋ % 2 = 0 then ⌊q⌋
  else ⌊q⌋ + 1

/-- The binary floating-point number with `p` significant bits nearest to `q`
(round to nearest, ties to even), the conversion C++ applies when a value is
stored in a `double` (`p = 53`) or a `float` (`p = 24`).  The exponent range
is not bounded; the values rounded here lie between 1 and 2. -/
def round_binary (p : Nat) (q : ℚ) : ℚ :=
  if q = 0 then 0
  else
    round_half_even (q / 2 ^ (Int.log 2 |q| - ((p : ℤ) - 1)))
      * 2 ^ (Int.log 2 |q| - ((p : ℤ) - 1))

/-- Line 130, `const float scale = b / (b - 1.);`, in binary floating point:
`b` and `b - 1.` are exact in `double` for every 32-bit `b`, the quotient is
rounded to `double` and the initialisation of `scale` rounds it to `float`. -/
def normalize_scale_float (b : Nat) : ℚ :=
  round_binary 24 (round_binary 53 ((b : ℚ) / ((b : ℚ) - 1)))

/-- The divisor `b - 1.` of line 130 for a node of shape `s`, or none when
`batch::normalize` returns on line 128 before `scale` is computed. -/
def normalize_scale_divisor (s : Shape) : Option ℚ :=
  if !s.has_batch then none
  else some ((s.batch_size : ℚ) - 1)

/-! ## Basic facts about the state-passing layer -/

theorem Heap.extend_same (h : Heap) (g : GraphPtr) (ss : List Step) :
    h.extend g ss g = h g ++ ss := by
  simp [Heap.extend]

theorem Heap.extend_other (h : Heap) (g g' : GraphPtr) (ss : List Step) (hne : g' ≠ g) :
    h.extend g ss g' = h g' := by
  simp [Heap.extend, hne]

theorem Heap.extend_extend (h : Heap) (g : GraphPtr) (a b : List Step) :
    (h.extend g a).extend g b = h.extend g (a ++ b) := by
  funext g'
  by_cases hg : g' = g <;> simp [Heap.extend, hg]

theorem Heap.extend_nil (h : Heap) (g : GraphPtr) : h.extend g [] = h := by
  funext g'
  by_cases hg : g' = g <;> simp [Heap.extend, hg]

theorem run_pure {α : Type} (a : α) (h : Heap) : (pure a : M α) h = (Except.ok a, h) := rfl

theorem run_bind {α β : Type} (m : M α) (f : α → M β) (h : Heap) :
    (m >>= f) h =
      match m h with
      | (Except.ok a, h1) => f a h1
      | (Except.error e, h1) => (Except.error e, h1) := rfl

theorem FunctionImpl.new_step_shape (F : FunctionImpl) (f : Function) (ids : List Nat)
    (ins : List Step) (s : Shape) : (F.new_step f ids ins s).shape = s := rfl

theorem FunctionImpl.new_step_device (F : FunctionImpl) (f : Function) (ids : List Nat)
    (ins : List Step) (s : Shape) :
    (F.new_step f ids ins s).device = F.get_device f (ins.map Step.device) := rfl

theorem run_bind_assoc {α β γ : Type} (m : M α) (f : α → M β) (k : β → M γ) :
    (m >>= f) >>= k = m >>= fun a => f a >>= k := by
  funext h
  simp only [run_bind]
  rcases m h with ⟨_ | _, _⟩ <;> rfl

theorem run_bind_error {α β : Type} {m : M α} {f : α → M β} {h h1 : Heap} {e : Error}
    (hm : m h = (Except.error e, h1)) : (m >>= f) h = (Except.error e, h1) := by
  show M.bind m f h = (Except.error e, h1)
  simp [M.bind, hm]

theorem Node.lookup_extend_old {h : Heap} {g : GraphPtr} {x : Node} {st : Step}
    (ss : List Step) (hx : x.lookup h g = some st) : x.lookup (h.extend g ss) g = some st := by
  unfold Node.lookup at hx ⊢
  by_cases hg : x.graph = g
  · simp only [hg, if_true] at hx ⊢
    rw [Heap.extend_same]
    have hlt : x.id < (h g).length := by
      by_contra hge
      rw [List.getElem?_eq_none (Nat.le_of_not_lt hge)] at hx
      exact Option.noConfusion hx
    rw [List.getElem?_append_left hlt]
    exact hx
  · simp [hg] at hx

theorem Node.lookup_extend_new (h : Heap) (g : GraphPtr) (ss : List Step) (j : Nat) :
    Node.lookup (h.extend g ss) g ⟨g, (h g).length + j⟩ = ss[j]? := by
  unfold Node.lookup
  simp [Heap.extend_same, List.getElem?_append_right]

theorem Node.lookup_extend_last (h : Heap) (g : GraphPtr) (ss : List Step) :
    Node.lookup (h.extend g ss) g ⟨g, (h g).length⟩ = ss[0]? :=
  Node.lookup_extend_new h g ss 0

theorem Node.device_run {h : Heap} {x : Node} {st : Step} (hx : x.lookup h x.graph = some st) :
    x.device h = (Except.ok st.device, h) := by
  simp [Node.device, hx]

theorem add_function_nullary {F : FunctionImpl} {h : Heap} {g : GraphPtr} {f : Function}
    {s : Shape} (hs : F.forward_shape f [] = some s) :
    add_function F g f [] h =
      (Except.ok ⟨g, (h g).length⟩, h.extend g [F.new_step f [] [] s]) := by
  simp [add_function, gather, hs]

theorem add_function_unary {F : FunctionImpl} {h : Heap} {g : GraphPtr} {f : Function}
    {x : Node} {st : Step} {s : Shape} (hx : x.lookup h g = some st)
    (hs : F.forward_shape f [st.shape] = some s) :
    add_function F g f [x] h =
      (Except.ok ⟨g, (h g).length⟩, h.extend g [F.new_step f [x.id] [st] s]) := by
  simp [add_function, gather, hx, hs]

theorem add_function_binary {F : FunctionImpl} {h : Heap} {g : GraphPtr} {f : Function}
    {a b : Node} {sa sb : Step} {s : Shape} (ha : a.lookup h g = some sa)
    (hb : b.lookup h g = some sb) (hs : F.forward_shape f [sa.shape, sb.shape] = some s) :
    add_function F g f [a, b] h =
      (Except.ok ⟨g, (h g).length⟩, h.extend g [F.new_step f [a.id, b.id] [sa, sb] s]) := by
  simp [add_function, gather, ha, hb, hs]

/-! ## Dropout -/

/-- C1: with `enabled = false`, `dropout` returns the node it was given and
leaves the step table of every graph as it was, whatever the rate (1
included) and whatever the node. -/
theorem dropout_disabled_is_identity (F : FunctionImpl) (lhs_first : Bool) (x : Node) (rate : ℚ)
    (h : Heap) : node_ops.dropout F lhs_first x rate false h = (Except.ok x, h) := by
  simp only [node_ops.dropout, Bool.not_false, if_true]
  rfl

/-- C2: with rate 1 and `enabled = true`, `dropout` appends exactly one step,
`MultiplyConst 0` with the single input `x`, to the graph of `x` and returns
the node of that step; no Bernoulli source is appended.  The step has the
shape of `x`, and multiplying every element by 0 gives zero everywhere. -/
theorem dropout_rate_one_multiplies_by_zero (F : FunctionImpl) (lhs_first : Bool) (x : Node)
    (h : Heap) (st : Step) (hx : x.lookup h x.graph = some st)
    (hs : F.forward_shape (Function.MultiplyConst 0) [st.shape] = some st.shape) :
    node_ops.dropout F lhs_first x 1 true h =
        (Except.ok ⟨x.graph, (h x.graph).length⟩,
          h.extend x.graph [F.new_step (Function.MultiplyConst 0) [x.id] [st] st.shape])
      ∧ (F.new_step (Function.MultiplyConst 0) [x.id] [st] st.shape).shape = st.shape
      ∧ ∀ v : List ℚ, multiply_const_forward 0 v = List.replicate v.length 0 := by
  refine ⟨?_, rfl, ?_⟩
  · simp only [node_ops.dropout, Bool.not_true, if_true, operator_mul_const_node]
    exact add_function_unary hx hs
  · intro v
    induction v with
    | nil => rfl
    | cons a t ih =>
      simp only [multiply_const_forward, List.map_cons, zero_mul, List.length_cons,
        List.replicate_succ] at ih ⊢
      rw [ih]

theorem dropout_rate_one_witness :
    sample_node.lookup sample_heap sample_node.graph = some sample_input
      ∧ spec_impl.forward_shape (Function.MultiplyConst 0) [sample_input.shape]
          = some sample_input.shape
      ∧ (node_ops.dropout spec_impl true sample_node 1 true sample_heap =
            (Except.ok ⟨0, 1⟩,
              sample_heap.extend 0
                [⟨Function.MultiplyConst 0, [0], ⟨[2, 3], 2⟩, 0⟩])
          ∧ (spec_impl.new_step (Function.MultiplyConst 0) [sample_node.id] [sample_input]
                sample_input.shape).shape = sample_input.shape
          ∧ ∀ v : List ℚ, multiply_const_forward 0 v = List.replicate v.length 0) :=
  ⟨rfl, rfl,
    dropout_rate_one_multiplies_by_zero spec_impl true sample_node sample_heap sample_input
      rfl rfl⟩

/-- C4: on a node whose shape has batch size 1 (no batch), `batch::normalize`
returns the node it was given and leaves every step table as it was. -/
theorem normalize_without_batch_is_identity (F : FunctionImpl)
    (sub_lhs_first div_lhs_first : Bool) (x : Node) (h : Heap) (st : Step)
    (hx : x.lookup h x.graph = some st) (hb : st.shape.batch_size = 1) :
    node_ops.batch.normalize F sub_lhs_first div_lhs_first x h = (Except.ok x, h) := by
  have hnb : st.shape.has_batch = false := by
    simp only [Shape.batch_size] at hb
    simp [Shape.has_batch, hb]
  simp only [node_ops.batch.normalize, run_bind, Node.shape, hx, hnb, Bool.not_false, if_true]
  rfl

theorem normalize_without_batch_witness :
    sample_node.lookup sample_heap_single sample_node.graph = some sample_input_single
      ∧ sample_input_single.shape.batch_size = 1
      ∧ node_ops.batch.normalize spec_impl true true sample_node sample_heap_single
          = (Except.ok sample_node, sample_heap_single) :=
  ⟨rfl, rfl,
    normalize_without_batch_is_identity spec_impl true true sample_node sample_heap_single
      sample_input_single rfl rfl⟩

/-- C6: when the three primitive steps are accepted, `log_softmax(x, dim)`
appends exactly three steps: `LogSumExp dim` on `x`, `Broadcast dim size` on
that step with `size` the size of dimension `dim` of the shape of `x`, and
`Subtract` with inputs `x` and the broadcast step in this order; the
`Subtract` step is returned. -/
theorem log_softmax_structure (F : FunctionImpl) (x : Node) (dim : Nat) (h : Heap) (st : Step)
    (s1 s2 s3 : Shape) (hx : x.lookup h x.graph = some st)
    (h1 : F.forward_shape (Function.LogSumExp dim) [st.shape] = some s1)
    (h2 : F.forward_shape (Function.Broadcast dim (st.shape.get dim)) [s1] = some s2)
    (h3 : F.forward_shape Function.Subtract [st.shape, s2] = some s3) :
    let n := (h x.graph).length
    let lse := F.new_step (Function.LogSumExp dim) [x.id] [st] s1
    let bc := F.new_step (Function.Broadcast dim (st.shape.get dim)) [n] [lse] s2
    let sub := F.new_step Function.Subtract [x.id, n + 1] [st, bc] s3
    node_ops.log_softmax F x dim h =
      (Except.ok ⟨x.graph, n + 2⟩, h.extend x.graph [lse, bc, sub]) := by
  intro n lse bc sub
  have hx' := fun ss => Node.lookup_extend_old (h := h) ss hx
  simp only [node_ops.log_softmax, node_ops.logsumexp, node_ops.broadcast, operator_sub,
    h1, h2, h3, n, lse, bc, sub,
    run_bind, run_pure, add_function, gather, Node.shape, Node.device, hx, hx',
    Node.lookup_extend_new, Node.lookup_extend_last, Heap.extend_extend, Heap.extend_same,
    List.length_append, List.length_singleton, List.length_cons, List.length_nil,
    List.singleton_append, List.cons_append, List.nil_append, FunctionImpl.new_step_shape,
    List.map_cons, List.map_nil, List.getElem?_cons_zero, List.getElem?_cons_succ]

theorem log_softmax_witness :
    sample_node.lookup sample_heap sample_node.graph = some sample_input
      ∧ spec_impl.forward_shape (Function.LogSumExp 1) [sample_input.shape] = some ⟨[2, 1], 2⟩
      ∧ spec_impl.forward_shape (Function.Broadcast 1 (sample_input.shape.get 1)) [⟨[2, 1], 2⟩]
          = some ⟨[2, 3], 2⟩
      ∧ spec_impl.forward_shape Function.Subtract [sample_input.shape, ⟨[2, 3], 2⟩]
          = some ⟨[2, 3], 2⟩
      ∧ node_ops.log_softmax spec_impl sample_node 1 sample_heap =
          (Except.ok ⟨0, 3⟩,
            sample_heap.extend 0
              [⟨Function.LogSumExp 1, [0], ⟨[2, 1], 2⟩, 0⟩,
                ⟨Function.Broadcast 1 3, [1], ⟨[2, 3], 2⟩, 0⟩,
                ⟨Function.Subtract, [0, 2], ⟨[2, 3], 2⟩, 0⟩]) :=
  ⟨rfl, rfl, rfl, rfl,
    log_softmax_structure spec_impl sample_node 1 sample_heap sample_input
      ⟨[2, 1], 2⟩ ⟨[2, 3], 2⟩ ⟨[2, 3], 2⟩ rfl rfl rfl rfl⟩

/-- C7: `softmax(x, dim)` is an `Exp` step whose single input is the node
`log_softmax(x, dim)` returns from the same step tables: it appends the three
steps of `log_softmax` and then one `Exp` step, four in all, and returns the
`Exp` step; no other primitive is involved. -/
theorem softmax_is_exp_of_log_softmax (F : FunctionImpl) (x : Node) (dim : Nat) (h : Heap)
    (st : Step) (s1 s2 s3 s4 : Shape) (hx : x.lookup h x.graph = some st)
    (h1 : F.forward_shape (Function.LogSumExp dim) [st.shape] = some s1)
    (h2 : F.forward_shape (Function.Broadcast dim (st.shape.get dim)) [s1] = some s2)
    (h3 : F.forward_shape Function.Subtract [st.shape, s2] = some s3)
    (h4 : F.forward_shape Function.Exp [s3] = some s4) :
    let n := (h x.graph).length
    let lse := F.new_step (Function.LogSumExp dim) [x.id] [st] s1
    let bc := F.new_step (Function.Broadcast dim (st.shape.get dim)) [n] [lse] s2
    let sub := F.new_step Function.Subtract [x.id, n + 1] [st, bc] s3
    let ex := F.new_step Function.Exp [n + 2] [sub] s4
    node_ops.log_softmax F x dim h =
        (Except.ok ⟨x.graph, n + 2⟩, h.extend x.graph [lse, bc, sub])
      ∧ node_ops.exp F ⟨x.graph, n + 2⟩ (h.extend x.graph [lse, bc, sub]) =
        (Except.ok ⟨x.graph, n + 3⟩, h.extend x.graph [lse, bc, sub, ex])
      ∧ node_ops.softmax F x dim h =
        (Except.ok ⟨x.graph, n + 3⟩, h.extend x.graph [lse, bc, sub, ex]) := by
  intro n lse bc sub ex
  have hx' := fun ss => Node.lookup_extend_old (h := h) ss hx
  refine ⟨?_, ?_, ?_⟩ <;>
  simp only [node_ops.softmax, node_ops.exp, node_ops.log_softmax, node_ops.logsumexp,
    node_ops.broadcast, operator_sub, h1, h2, h3, h4, n, lse, bc, sub, ex,
    run_bind, run_pure, add_function, gather, Node.shape, Node.device, hx, hx',
    Node.lookup_extend_new, Node.lookup_extend_last, Heap.extend_extend, Heap.extend_same,
    List.length_append, List.length_singleton, List.length_cons, List.length_nil,
    List.singleton_append, List.cons_append, List.nil_append, FunctionImpl.new_step_shape,
    List.map_cons, List.map_nil, List.getElem?_cons_zero, List.getElem?_cons_succ]

theorem softmax_witness :
    sample_node.lookup sample_heap sample_node.graph = some sample_input
      ∧ spec_impl.forward_shape (Function.LogSumExp 1) [sample_input.shape] = some ⟨[2, 1], 2⟩
      ∧ spec_impl.forward_shape (Function.Broadcast 1 (sample_input.shape.get 1)) [⟨[2, 1], 2⟩]
          = some ⟨[2, 3], 2⟩
      ∧ spec_impl.forward_shape Function.Subtract [sample_input.shape, ⟨[2, 3], 2⟩]
          = some ⟨[2, 3], 2⟩
      ∧ spec_impl.forward_shape Function.Exp [⟨[2, 3], 2⟩] = some ⟨[2, 3], 2⟩
      ∧ (node_ops.log_softmax spec_impl sample_node 1 sample_heap =
            (Except.ok ⟨0, 3⟩,
              sample_heap.extend 0
                [⟨Function.LogSumExp 1, [0], ⟨[2, 1], 2⟩, 0⟩,
                  ⟨Function.Broadcast 1 3, [1], ⟨[2, 3], 2⟩, 0⟩,
                  ⟨Function.Subtract, [0, 2], ⟨[2, 3], 2⟩, 0⟩])
          ∧ node_ops.exp spec_impl ⟨0, 3⟩
              (sample_heap.extend 0
                [⟨Function.LogSumExp 1, [0], ⟨[2, 1], 2⟩, 0⟩,
                  ⟨Function.Broadcast 1 3, [1], ⟨[2, 3], 2⟩, 0⟩,
                  ⟨Function.Subtract, [0, 2], ⟨[2, 3], 2⟩, 0⟩]) =
            (Except.ok ⟨0, 4⟩,
              sample_heap.extend 0
                [⟨Function.LogSumExp 1, [0], ⟨[2, 1], 2⟩, 0⟩,
                  ⟨Function.Broadcast 1 3, [1], ⟨[2, 3], 2⟩, 0⟩,
                  ⟨Function.Subtract, [0, 2], ⟨[2, 3], 2⟩, 0⟩,
                  ⟨Function.Exp, [3], ⟨[2, 3], 2⟩, 0⟩])
          ∧ node_ops.softmax spec_impl sample_node 1 sample_heap =
            (Except.ok ⟨0, 4⟩,
              sample_heap.extend 0
                [⟨Function.LogSumExp 1, [0], ⟨[2, 1], 2⟩, 0⟩,
                  ⟨Function.Broadcast 1 3, [1], ⟨[2, 3], 2⟩, 0⟩,
                  ⟨Function.Subtract, [0, 2], ⟨[2, 3], 2⟩, 0⟩,
                  ⟨Function.Exp, [3], ⟨[2, 3], 2⟩, 0⟩])) :=
  ⟨rfl, rfl, rfl, rfl, rfl,
    softmax_is_exp_of_log_softmax spec_impl sample_node 1 sample_heap sample_input
      ⟨[2, 1], 2⟩ ⟨[2, 3], 2⟩ ⟨[2, 3], 2⟩ ⟨[2, 3], 2⟩ rfl rfl rfl rfl rfl⟩

/-- C8: the sparse-target `softmax_cross_entropy(x, dim, ids)` and the
composition `pick(−log_softmax(x, dim), dim, ids)` written out in primitives
are the same computation from every state of the step tables; when the five
primitive steps are accepted both append `LogSumExp dim`, `Broadcast`,
`Subtract`, `Negative` and `Pick dim ids`, in this order and each on the
previous one, and return the `Pick` step. -/
theorem sparse_cross_entropy_is_pick_of_neg_log_softmax (F : FunctionImpl) (x : Node)
    (dim : Nat) (ids : List Nat) (h : Heap) (st : Step) (s1 s2 s3 s4 s5 : Shape)
    (hx : x.lookup h x.graph = some st)
    (h1 : F.forward_shape (Function.LogSumExp dim) [st.shape] = some s1)
    (h2 : F.forward_shape (Function.Broadcast dim (st.shape.get dim)) [s1] = some s2)
    (h3 : F.forward_shape Function.Subtract [st.shape, s2] = some s3)
    (h4 : F.forward_shape Function.Negative [s3] = some s4)
    (h5 : F.forward_shape (Function.Pick dim ids) [s4] = some s5) :
    let n := (h x.graph).length
    let lse := F.new_step (Function.LogSumExp dim) [x.id] [st] s1
    let bc := F.new_step (Function.Broadcast dim (st.shape.get dim)) [n] [lse] s2
    let sub := F.new_step Function.Subtract [x.id, n + 1] [st, bc] s3
    let neg := F.new_step Function.Negative [n + 2] [sub] s4
    let pk := F.new_step (Function.Pick dim ids) [n + 3] [neg] s5
    (∀ h0 : Heap,
        node_ops.softmax_cross_entropy F x dim ids h0 = spec_pick_neg_log_softmax F x dim ids h0)
      ∧ node_ops.softmax_cross_entropy F x dim ids h =
        (Except.ok ⟨x.graph, n + 4⟩, h.extend x.graph [lse, bc, sub, neg, pk])
      ∧ spec_pick_neg_log_softmax F x dim ids h =
        (Except.ok ⟨x.graph, n + 4⟩, h.extend x.graph [lse, bc, sub, neg, pk]) := by
  intro n lse bc sub neg pk
  have hx' := fun ss => Node.lookup_extend_old (h := h) ss hx
  refine ⟨?_, ?_, ?_⟩
  · intro h0
    simp only [node_ops.softmax_cross_entropy, spec_pick_neg_log_softmax, node_ops.log_softmax,
      node_ops.logsumexp, node_ops.broadcast, node_ops.pick, operator_sub, operator_neg,
      run_bind_assoc]
  · simp only [node_ops.softmax_cross_entropy, node_ops.log_softmax, node_ops.logsumexp,
      node_ops.broadcast, node_ops.pick, operator_sub, operator_neg, h1, h2, h3, h4, h5,
      n, lse, bc, sub, neg, pk,
      run_bind, run_pure, add_function, gather, Node.shape, Node.device, hx, hx',
    Node.lookup_extend_new, Node.lookup_extend_last, Heap.extend_extend, Heap.extend_same,
    List.length_append, List.length_singleton, List.length_cons, List.length_nil,
    List.singleton_append, List.cons_append, List.nil_append, FunctionImpl.new_step_shape,
    List.map_cons, List.map_nil, List.getElem?_cons_zero, List.getElem?_cons_succ]
  · simp only [spec_pick_neg_log_softmax, h1, h2, h3, h4, h5, n, lse, bc, sub, neg, pk,
      run_bind, run_pure, add_function, gather, Node.shape, Node.device, hx, hx',
    Node.lookup_extend_new, Node.lookup_extend_last, Heap.extend_extend, Heap.extend_same,
    List.length_append, List.length_singleton, List.length_cons, List.length_nil,
    List.singleton_append, List.cons_append, List.nil_append, FunctionImpl.new_step_shape,
    List.map_cons, List.map_nil, List.getElem?_cons_zero, List.getElem?_cons_succ]

theorem sparse_cross_entropy_witness :
    sample_node.lookup sample_heap sample_node.graph = some sample_input
      ∧ spec_impl.forward_shape (Function.LogSumExp 1) [sample_input.shape] = some ⟨[2, 1], 2⟩
      ∧ spec_impl.forward_shape (Function.Broadcast 1 (sample_input.shape.get 1)) [⟨[2, 1], 2⟩]
          = some ⟨[2, 3], 2⟩
      ∧ spec_impl.forward_shape Function.Subtract [sample_input.shape, ⟨[2, 3], 2⟩]
          = some ⟨[2, 3], 2⟩
      ∧ spec_impl.forward_shape Function.Negative [⟨[2, 3], 2⟩] = some ⟨[2, 3], 2⟩
      ∧ spec_impl.forward_shape (Function.Pick 1 [2, 0]) [⟨[2, 3], 2⟩] = some ⟨[2, 1], 2⟩
      ∧ ((∀ h0 : Heap,
            node_ops.softmax_cross_entropy spec_impl sample_node 1 [2, 0] h0
              = spec_pick_neg_log_softmax spec_impl sample_node 1 [2, 0] h0)
          ∧ node_ops.softmax_cross_entropy spec_impl sample_node 1 [2, 0] sample_heap =
            (Except.ok ⟨0, 5⟩,
              sample_heap.extend 0
                [⟨Function.LogSumExp 1, [0], ⟨[2, 1], 2⟩, 0⟩,
                  ⟨Function.Broadcast 1 3, [1], ⟨[2, 3], 2⟩, 0⟩,
                  ⟨Function.Subtract, [0, 2], ⟨[2, 3], 2⟩, 0⟩,
                  ⟨Function.Negative, [3], ⟨[2, 3], 2⟩, 0⟩,
                  ⟨Function.Pick 1 [2, 0], [4], ⟨[2, 1], 2⟩, 0⟩])
          ∧ spec_pick_neg_log_softmax spec_impl sample_node 1 [2, 0] sample_heap =
            (Except.ok ⟨0, 5⟩,
              sample_heap.extend 0
                [⟨Function.LogSumExp 1, [0], ⟨[2, 1], 2⟩, 0⟩,
                  ⟨Function.Broadcast 1 3, [1], ⟨[2, 3], 2⟩, 0⟩,
                  ⟨Function.Subtract, [0, 2], ⟨[2, 3], 2⟩, 0⟩,
                  ⟨Function.Negative, [3], ⟨[2, 3], 2⟩, 0⟩,
                  ⟨Function.Pick 1 [2, 0], [4], ⟨[2, 1], 2⟩, 0⟩])) :=
  ⟨rfl, rfl, rfl, rfl, rfl, rfl,
    sparse_cross_entropy_is_pick_of_neg_log_softmax spec_impl sample_node 1 [2, 0] sample_heap
      sample_input ⟨[2, 1], 2⟩ ⟨[2, 3], 2⟩ ⟨[2, 3], 2⟩ ⟨[2, 3], 2⟩ ⟨[2, 1], 2⟩
      rfl rfl rfl rfl rfl rfl⟩

/-! ## Operators -/

/-- C11: with a constant operand, subtraction and division pick the primitive
by the side of the constant: `k - x` appends `SubtractConstL k` on `x`,
`x - k` appends `SubtractConstR k`, `k / x` appends `DivideConstL k` and
`x / k` appends `DivideConstR k`; the left and the right primitive are
different functions, so the two sides are never interchanged. -/
theorem constant_side_selects_primitive (F : FunctionImpl) (x : Node) (k : ℚ) (h : Heap)
    (st : Step) (s1 s2 s3 s4 : Shape) (hx : x.lookup h x.graph = some st)
    (h1 : F.forward_shape (Function.SubtractConstL k) [st.shape] = some s1)
    (h2 : F.forward_shape (Function.SubtractConstR k) [st.shape] = some s2)
    (h3 : F.forward_shape (Function.DivideConstL k) [st.shape] = some s3)
    (h4 : F.forward_shape (Function.DivideConstR k) [st.shape] = some s4) :
    let n := (h x.graph).length
    operator_sub_const_node F k x h =
        (Except.ok ⟨x.graph, n⟩,
          h.extend x.graph [F.new_step (Function.SubtractConstL k) [x.id] [st] s1])
      ∧ operator_sub_node_const F x k h =
        (Except.ok ⟨x.graph, n⟩,
          h.extend x.graph [F.new_step (Function.SubtractConstR k) [x.id] [st] s2])
      ∧ operator_div_const_node F k x h =
        (Except.ok ⟨x.graph, n⟩,
          h.extend x.graph [F.new_step (Function.DivideConstL k) [x.id] [st] s3])
      ∧ operator_div_node_const F x k h =
        (Except.ok ⟨x.graph, n⟩,
          h.extend x.graph [F.new_step (Function.DivideConstR k) [x.id] [st] s4])
      ∧ Function.SubtractConstL k ≠ Function.SubtractConstR k
      ∧ Function.DivideConstL k ≠ Function.DivideConstR k := by
  intro n
  refine ⟨add_function_unary hx h1, add_function_unary hx h2, add_function_unary hx h3,
    add_function_unary hx h4, ?_, ?_⟩ <;> intro hne <;> exact Function.noConfusion hne

theorem constant_side_witness :
    sample_node.lookup sample_heap sample_node.graph = some sample_input
      ∧ spec_impl.forward_shape (Function.SubtractConstL 5) [sample_input.shape]
          = some ⟨[2, 3], 2⟩
      ∧ spec_impl.forward_shape (Function.SubtractConstR 5) [sample_input.shape]
          = some ⟨[2, 3], 2⟩
      ∧ spec_impl.forward_shape (Function.DivideConstL 5) [sample_input.shape]
          = some ⟨[2, 3], 2⟩
      ∧ spec_impl.forward_shape (Function.DivideConstR 5) [sample_input.shape]
          = some ⟨[2, 3], 2⟩
      ∧ (operator_sub_const_node spec_impl 5 sample_node sample_heap =
            (Except.ok ⟨0, 1⟩,
              sample_heap.extend 0 [⟨Function.SubtractConstL 5, [0], ⟨[2, 3], 2⟩, 0⟩])
          ∧ operator_sub_node_const spec_impl sample_node 5 sample_heap =
            (Except.ok ⟨0, 1⟩,
              sample_heap.extend 0 [⟨Function.SubtractConstR 5, [0], ⟨[2, 3], 2⟩, 0⟩])
          ∧ operator_div_const_node spec_impl 5 sample_node sample_heap =
            (Except.ok ⟨0, 1⟩,
              sample_heap.extend 0 [⟨Function.DivideConstL 5, [0], ⟨[2, 3], 2⟩, 0⟩])
          ∧ operator_div_node_const spec_impl sample_node 5 sample_heap =
            (Except.ok ⟨0, 1⟩,
              sample_heap.extend 0 [⟨Function.DivideConstR 5, [0], ⟨[2, 3], 2⟩, 0⟩])
          ∧ Function.SubtractConstL 5 ≠ Function.SubtractConstR 5
          ∧ Function.DivideConstL 5 ≠ Function.DivideConstR 5) :=
  ⟨rfl, rfl, rfl, rfl, rfl,
    constant_side_selects_primitive spec_impl sample_node 5 sample_heap sample_input
      ⟨[2, 3], 2⟩ ⟨[2, 3], 2⟩ ⟨[2, 3], 2⟩ ⟨[2, 3], 2⟩ rfl rfl rfl rfl rfl⟩

/-- C12: for two nodes `a` and `b` that are steps of the same graph and whose
shapes the primitive accepts, each of `a + b`, `a - b`, `a * b` and `a / b`
appends exactly one step to that graph, with primitive `Add`, `Subtract`,
`Multiply` and `Divide` respectively and inputs `a`, `b` in this order, and
returns the node of the new step. -/
theorem binary_operators_append_one_step (F : FunctionImpl) (a b : Node) (h : Heap)
    (sa sb : Step) (s1 s2 s3 s4 : Shape) (hab : b.graph = a.graph)
    (ha : a.lookup h a.graph = some sa) (hb : b.lookup h b.graph = some sb)
    (h1 : F.forward_shape Function.Add [sa.shape, sb.shape] = some s1)
    (h2 : F.forward_shape Function.Subtract [sa.shape, sb.shape] = some s2)
    (h3 : F.forward_shape Function.Multiply [sa.shape, sb.shape] = some s3)
    (h4 : F.forward_shape Function.Divide [sa.shape, sb.shape] = some s4) :
    let n := (h a.graph).length
    operator_add F a b h =
        (Except.ok ⟨a.graph, n⟩,
          h.extend a.graph [F.new_step Function.Add [a.id, b.id] [sa, sb] s1])
      ∧ operator_sub F a b h =
        (Except.ok ⟨a.graph, n⟩,
          h.extend a.graph [F.new_step Function.Subtract [a.id, b.id] [sa, sb] s2])
      ∧ operator_mul F a b h =
        (Except.ok ⟨a.graph, n⟩,
          h.extend a.graph [F.new_step Function.Multiply [a.id, b.id] [sa, sb] s3])
      ∧ operator_div F a b h =
        (Except.ok ⟨a.graph, n⟩,
          h.extend a.graph [F.new_step Function.Divide [a.id, b.id] [sa, sb] s4]) := by
  intro n
  rw [hab] at hb
  exact ⟨add_function_binary ha hb h1, add_function_binary ha hb h2,
    add_function_binary ha hb h3, add_function_binary ha hb h4⟩

theorem binary_operators_witness :
    sample_node.graph = sample_node.graph
      ∧ sample_node.lookup sample_heap sample_node.graph = some sample_input
      ∧ sample_node.lookup sample_heap sample_node.graph = some sample_input
      ∧ spec_impl.forward_shape Function.Add [sample_input.shape, sample_input.shape]
          = some ⟨[2, 3], 2⟩
      ∧ spec_impl.forward_shape Function.Subtract [sample_input.shape, sample_input.shape]
          = some ⟨[2, 3], 2⟩
      ∧ spec_impl.forward_shape Function.Multiply [sample_input.shape, sample_input.shape]
          = some ⟨[2, 3], 2⟩
      ∧ spec_impl.forward_shape Function.Divide [sample_input.shape, sample_input.shape]
          = some ⟨[2, 3], 2⟩
      ∧ (operator_add spec_impl sample_node sample_node sample_heap =
            (Except.ok ⟨0, 1⟩, sample_heap.extend 0 [⟨Function.Add, [0, 0], ⟨[2, 3], 2⟩, 0⟩])
          ∧ operator_sub spec_impl sample_node sample_node sample_heap =
            (Except.ok ⟨0, 1⟩,
              sample_heap.extend 0 [⟨Function.Subtract, [0, 0], ⟨[2, 3], 2⟩, 0⟩])
          ∧ operator_mul spec_impl sample_node sample_node sample_heap =
            (Except.ok ⟨0, 1⟩,
              sample_heap.extend 0 [⟨Function.Multiply, [0, 0], ⟨[2, 3], 2⟩, 0⟩])
          ∧ operator_div spec_impl sample_node sample_node sample_heap =
            (Except.ok ⟨0, 1⟩,
              sample_heap.extend 0 [⟨Function.Divide, [0, 0], ⟨[2, 3], 2⟩, 0⟩])) :=
  ⟨rfl, rfl, rfl, rfl, rfl, rfl, rfl,
    binary_operators_append_one_step spec_impl sample_node sample_node sample_heap
      sample_input sample_input ⟨[2, 3], 2⟩ ⟨[2, 3], 2⟩ ⟨[2, 3], 2⟩ ⟨[2, 3], 2⟩
      rfl rfl rfl rfl rfl rfl rfl⟩

/-! ## Divisions and failures -/

/-- C18: when `log_softmax` and the negation are accepted and the final `Pick`
step is rejected, the sparse-target `softmax_cross_entropy` fails with a shape
mismatch and the four steps appended before it (`LogSumExp`, `Broadcast`,
`Subtract`, `Negative`) stay in the graph; the rejected `add_function` call
itself appends nothing. -/
theorem failed_pick_keeps_earlier_steps (F : FunctionImpl) (x : Node) (dim : Nat)
    (ids : List Nat) (h : Heap) (st : Step) (s1 s2 s3 s4 : Shape)
    (hx : x.lookup h x.graph = some st)
    (h1 : F.forward_shape (Function.LogSumExp dim) [st.shape] = some s1)
    (h2 : F.forward_shape (Function.Broadcast dim (st.shape.get dim)) [s1] = some s2)
    (h3 : F.forward_shape Function.Subtract [st.shape, s2] = some s3)
    (h4 : F.forward_shape Function.Negative [s3] = some s4)
    (h5 : F.forward_shape (Function.Pick dim ids) [s4] = none) :
    let n := (h x.graph).length
    let lse := F.new_step (Function.LogSumExp dim) [x.id] [st] s1
    let bc := F.new_step (Function.Broadcast dim (st.shape.get dim)) [n] [lse] s2
    let sub := F.new_step Function.Subtract [x.id, n + 1] [st, bc] s3
    let neg := F.new_step Function.Negative [n + 2] [sub] s4
    node_ops.softmax_cross_entropy F x dim ids h =
        (Except.error Error.shapeMismatch, h.extend x.graph [lse, bc, sub, neg])
      ∧ node_ops.pick F ⟨x.graph, n + 3⟩ dim ids (h.extend x.graph [lse, bc, sub, neg]) =
        (Except.error Error.shapeMismatch, h.extend x.graph [lse, bc, sub, neg])
      ∧ (h.extend x.graph [lse, bc, sub, neg] x.graph).length = n + 4 := by
  intro n lse bc sub neg
  have hx' := fun ss => Node.lookup_extend_old (h := h) ss hx
  refine ⟨?_, ?_, ?_⟩ <;>
  simp only [node_ops.softmax_cross_entropy, node_ops.log_softmax, node_ops.logsumexp,
    node_ops.broadcast, node_ops.pick, operator_sub, operator_neg, h1, h2, h3, h4, h5,
    n, lse, bc, sub, neg,
    run_bind, run_pure, add_function, gather, Node.shape, Node.device, hx, hx',
    Node.lookup_extend_new, Node.lookup_extend_last, Heap.extend_extend, Heap.extend_same,
    List.length_append, List.length_singleton, List.length_cons, List.length_nil,
    List.singleton_append, List.cons_append, List.nil_append, FunctionImpl.new_step_shape,
    List.map_cons, List.map_nil, List.getElem?_cons_zero, List.getElem?_cons_succ]

theorem failed_pick_witness :
    sample_node.lookup sample_heap sample_node.graph = some sample_input
      ∧ spec_impl.forward_shape (Function.LogSumExp 1) [sample_input.shape] = some ⟨[2, 1], 2⟩
      ∧ spec_impl.forward_shape (Function.Broadcast 1 (sample_input.shape.get 1)) [⟨[2, 1], 2⟩]
          = some ⟨[2, 3], 2⟩
      ∧ spec_impl.forward_shape Function.Subtract [sample_input.shape, ⟨[2, 3], 2⟩]
          = some ⟨[2, 3], 2⟩
      ∧ spec_impl.forward_shape Function.Negative [⟨[2, 3], 2⟩] = some ⟨[2, 3], 2⟩
      ∧ spec_impl.forward_shape (Function.Pick 1 [2, 3]) [⟨[2, 3], 2⟩] = none
      ∧ (node_ops.softmax_cross_entropy spec_impl sample_node 1 [2, 3] sample_heap =
            (Except.error Error.shapeMismatch,
              sample_heap.extend 0
                [⟨Function.LogSumExp 1, [0], ⟨[2, 1], 2⟩, 0⟩,
                  ⟨Function.Broadcast 1 3, [1], ⟨[2, 3], 2⟩, 0⟩,
                  ⟨Function.Subtract, [0, 2], ⟨[2, 3], 2⟩, 0⟩,
                  ⟨Function.Negative, [3], ⟨[2, 3], 2⟩, 0⟩])
          ∧ node_ops.pick spec_impl ⟨0, 4⟩ 1 [2, 3]
              (sample_heap.extend 0
                [⟨Function.LogSumExp 1, [0], ⟨[2, 1], 2⟩, 0⟩,
                  ⟨Function.Broadcast 1 3, [1], ⟨[2, 3], 2⟩, 0⟩,
                  ⟨Function.Subtract, [0, 2], ⟨[2, 3], 2⟩, 0⟩,
                  ⟨Function.Negative, [3], ⟨[2, 3], 2⟩, 0⟩]) =
            (Except.error Error.shapeMismatch,
              sample_heap.extend 0
                [⟨Function.LogSumExp 1, [0], ⟨[2, 1], 2⟩, 0⟩,
                  ⟨Function.Broadcast 1 3, [1], ⟨[2, 3], 2⟩, 0⟩,
                  ⟨Function.Subtract, [0, 2], ⟨[2, 3], 2⟩, 0⟩,
                  ⟨Function.Negative, [3], ⟨[2, 3], 2⟩, 0⟩])
          ∧ (sample_heap.extend 0
                [⟨Function.LogSumExp 1, [0], ⟨[2, 1], 2⟩, 0⟩,
                  ⟨Function.Broadcast 1 3, [1], ⟨[2, 3], 2⟩, 0⟩,
                  ⟨Function.Subtract, [0, 2], ⟨[2, 3], 2⟩, 0⟩,
                  ⟨Function.Negative, [3], ⟨[2, 3], 2⟩, 0⟩] 0).length = 1 + 4) :=
  ⟨rfl, rfl, rfl, rfl, rfl, rfl,
    failed_pick_keeps_earlier_steps spec_impl sample_node 1 [2, 3] sample_heap sample_input
      ⟨[2, 1], 2⟩ ⟨[2, 3], 2⟩ ⟨[2, 3], 2⟩ ⟨[2, 3], 2⟩ rfl rfl rfl rfl rfl rfl⟩

/-! ## The graph invariants -/

theorem InputsPrecede.nil (n : Nat) : InputsPrecede n [] := by
  intro j s hj
  simp at hj

theorem InputsPrecede.append {n : Nat} {a b : List Step} (ha : InputsPrecede n a)
    (hb : InputsPrecede (n + a.length) b) : InputsPrecede n (a ++ b) := by
  intro j s hj i hi
  by_cases hlt : j < a.length
  · rw [List.getElem?_append_left hlt] at hj
    exact ha j s hj i hi
  · have hge : a.length ≤ j := Nat.le_of_not_lt hlt
    rw [List.getElem?_append_right hge] at hj
    have := hb (j - a.length) s hj i hi
    omega

theorem gather_ids_lt {h : Heap} {g : GraphPtr} :
    ∀ {args : List Node} {ins : List Step}, gather h g args = some ins →
      ∀ i ∈ args.map Node.id, i < (h g).length := by
  intro args
  induction args with
  | nil =>
    intro ins _ i hi
    simp at hi
  | cons x xs ih =>
    intro ins hg i hi
    simp only [gather] at hg
    cases hl : x.lookup h g with
    | none => simp [hl] at hg
    | some s =>
      cases hr : gather h g xs with
      | none => simp [hl, hr] at hg
      | some ss =>
        simp only [List.map_cons, List.mem_cons] at hi
        rcases hi with hi | hi
        · subst hi
          unfold Node.lookup at hl
          by_cases hgr : x.graph = g
          · simp only [hgr, if_true] at hl
            by_contra hge
            rw [List.getElem?_eq_none (Nat.le_of_not_lt hge)] at hl
            exact Option.noConfusion hl
          · simp [hgr] at hl
        · exact ih hr i hi

theorem builds_add_function (F : FunctionImpl) (g : GraphPtr) (f : Function) (args : List Node) :
    Builds g (add_function F g f args) := by
  intro h a h' hrun
  unfold add_function at hrun
  cases hg : gather h g args with
  | none => simp [hg] at hrun
  | some ins =>
    cases hs : F.forward_shape f (ins.map Step.shape) with
    | none => simp [hg, hs] at hrun
    | some s =>
      simp only [hg, hs, Prod.mk.injEq, Except.ok.injEq] at hrun
      refine ⟨[F.new_step f (args.map Node.id) ins s], by simp, hrun.2.symm, ?_, ?_⟩
      · intro j st hj i hi
        cases j with
        | zero =>
          simp only [List.getElem?_cons_zero, Option.some.injEq] at hj
          subst hj
          have := gather_ids_lt hg i hi
          omega
        | succ k => simp at hj
      · simp [← hrun.1]

theorem Builds.to_extends {g : GraphPtr} {m : M Node} (hm : Builds g m) :
    Extends g (fun a => a.graph = g) m := by
  intro h a h' hrun
  obtain ⟨ss, _, hh, hp, ha⟩ := hm h a h' hrun
  exact ⟨ss, hh, hp, by rw [ha]⟩

theorem Builds.to_invariant {g : GraphPtr} {m : M Node} (hm : Builds g m) :
    KeepsInvariant g m := by
  intro h a h' hrun
  obtain ⟨ss, hne, hh, hp, ha⟩ := hm h a h' hrun
  refine ⟨ss, hh, hp, fun _ => ⟨ha, ?_⟩⟩
  have hpos : 0 < ss.length := List.length_pos.mpr hne
  rw [hh, Heap.extend_same, List.length_append, ha]
  simp only
  omega

theorem extends_pure {α : Type} (g : GraphPtr) (P : α → Prop) (a : α) (ha : P a) :
    Extends g P (pure a : M α) := by
  intro h b h' hrun
  rw [run_pure] at hrun
  simp only [Prod.mk.injEq, Except.ok.injEq] at hrun
  exact ⟨[], by rw [Heap.extend_nil]; exact hrun.2.symm, InputsPrecede.nil _, hrun.1 ▸ ha⟩

theorem extends_shape (g : GraphPtr) (x : Node) : Extends g (fun _ => True) x.shape := by
  intro h a h' hrun
  unfold Node.shape at hrun
  cases hl : x.lookup h x.graph with
  | none => simp [hl] at hrun
  | some s =>
    simp only [hl, Prod.mk.injEq, Except.ok.injEq] at hrun
    exact ⟨[], by rw [Heap.extend_nil]; exact hrun.2.symm, InputsPrecede.nil _, trivial⟩

theorem extends_device (g : GraphPtr) (x : Node) : Extends g (fun _ => True) x.device := by
  intro h a h' hrun
  unfold Node.device at hrun
  cases hl : x.lookup h x.graph with
  | none => simp [hl] at hrun
  | some s =>
    simp only [hl, Prod.mk.injEq, Except.ok.injEq] at hrun
    exact ⟨[], by rw [Heap.extend_nil]; exact hrun.2.symm, InputsPrecede.nil _, trivial⟩

theorem run_bind_eq_ok {α β : Type} {m : M α} {f : α → M β} {h h' : Heap} {b : β}
    (hrun : (m >>= f) h = (Except.ok b, h')) :
    ∃ (a : α) (h1 : Heap), m h = (Except.ok a, h1) ∧ f a h1 = (Except.ok b, h') := by
  rw [run_bind] at hrun
  rcases hm : m h with ⟨r, h1⟩
  cases r with
  | error e => simp [hm] at hrun
  | ok a =>
    simp only [hm] at hrun
    exact ⟨a, h1, rfl, hrun⟩

theorem extends_bind {α β : Type} {g : GraphPtr} {P : α → Prop} {Q : β → Prop} {m : M α}
    {f : α → M β} (hm : Extends g P m) (hf : ∀ a, P a → Extends g Q (f a)) :
    Extends g Q (m >>= f) := by
  intro h b h' hrun
  obtain ⟨a, h1, hma, hfa⟩ := run_bind_eq_ok hrun
  obtain ⟨ss1, hh1, hp1, hPa⟩ := hm h a h1 hma
  obtain ⟨ss2, hh2, hp2, hQb⟩ := hf a hPa h1 b h' hfa
  refine ⟨ss1 ++ ss2, ?_, ?_, hQb⟩
  · rw [hh2, hh1, Heap.extend_extend]
  · rw [hh1, Heap.extend_same, List.length_append] at hp2
    exact InputsPrecede.append hp1 hp2

theorem builds_bind {α : Type} {g : GraphPtr} {P : α → Prop} {m : M α} {f : α → M Node}
    (hm : Extends g P m) (hf : ∀ a, P a → Builds g (f a)) : Builds g (m >>= f) := by
  intro h b h' hrun
  obtain ⟨a, h1, hma, hfa⟩ := run_bind_eq_ok hrun
  obtain ⟨ss1, hh1, hp1, hPa⟩ := hm h a h1 hma
  obtain ⟨ss2, hne, hh2, hp2, hb⟩ := hf a hPa h1 b h' hfa
  refine ⟨ss1 ++ ss2, ?_, ?_, ?_, ?_⟩
  · intro hnil
    exact hne (List.append_eq_nil.mp hnil).2
  · rw [hh2, hh1, Heap.extend_extend]
  · rw [hh1, Heap.extend_same, List.length_append] at hp2
    exact InputsPrecede.append hp1 hp2
  · rw [hb, hh1, Heap.extend_same, List.length_append, List.length_append]
    have hpos : 0 < ss2.length := List.length_pos.mpr hne
    congr 1
    omega

theorem invariant_bind {α : Type} {g : GraphPtr} {m : M α} {f : α → M Node}
    (hnil : ∀ h a h', m h = (Except.ok a, h') → h' = h)
    (hf : ∀ a, KeepsInvariant g (f a)) : KeepsInvariant g (m >>= f) := by
  intro h b h' hrun
  obtain ⟨a, h1, hma, hfa⟩ := run_bind_eq_ok hrun
  have := hnil h a h1 hma
  subst this
  exact hf a h1 b h' hfa

theorem extends_unsequenced {α β : Type} {g : GraphPtr} {P : α → Prop} {Q : β → Prop}
    {a : M α} {b : M β} (lhs_first : Bool) (ha : Extends g P a) (hb : Extends g Q b) :
    Extends g (fun r => P r.1 ∧ Q r.2) (unsequenced lhs_first a b) := by
  cases lhs_first
  · simp only [unsequenced, Bool.false_eq_true, if_false]
    exact extends_bind hb fun y hy => extends_bind ha fun x hx => extends_pure g _ (x, y) ⟨hx, hy⟩
  · simp only [unsequenced, if_true]
    exact extends_bind ha fun x hx => extends_bind hb fun y hy => extends_pure g _ (x, y) ⟨hx, hy⟩

theorem invariant_pure (g : GraphPtr) (x : Node) : KeepsInvariant g (pure x : M Node) := by
  intro h a h' hrun
  rw [run_pure] at hrun
  simp only [Prod.mk.injEq, Except.ok.injEq] at hrun
  exact ⟨[], by rw [Heap.extend_nil]; exact hrun.2.symm, InputsPrecede.nil _,
    fun hne => absurd rfl hne⟩

theorem shape_keeps_heap (x : Node) (h : Heap) (a : Shape) (h' : Heap)
    (hrun : x.shape h = (Except.ok a, h')) : h' = h := by
  unfold Node.shape at hrun
  cases hl : x.lookup h x.graph with
  | none => simp [hl] at hrun
  | some s =>
    simp only [hl, Prod.mk.injEq, Except.ok.injEq] at hrun
    exact hrun.2.symm

theorem builds_on (F : FunctionImpl) {g : GraphPtr} (y : Node) (hy : y.graph = g)
    (f : Function) (args : List Node) : Builds g (add_function F y.graph f args) := by
  rw [hy]
  exact builds_add_function F g f args

theorem builds_mean (F : FunctionImpl) (x : Node) (dim : Nat) :
    Builds x.graph (node_ops.mean F x dim) :=
  builds_bind (extends_shape x.graph x) fun _ _ =>
    builds_bind (builds_add_function F x.graph (Function.Sum dim) [x]).to_extends fun y hy =>
      builds_on F y hy _ [y]

theorem builds_batch_mean (F : FunctionImpl) (x : Node) :
    Builds x.graph (node_ops.batch.mean F x) :=
  builds_bind (extends_shape x.graph x) fun _ _ =>
    builds_bind (builds_add_function F x.graph Function.BatchSum [x]).to_extends fun y hy =>
      builds_on F y hy _ [y]

theorem builds_log_softmax (F : FunctionImpl) (x : Node) (dim : Nat) :
    Builds x.graph (node_ops.log_softmax F x dim) :=
  builds_bind (extends_shape x.graph x) fun _ _ =>
    builds_bind (builds_add_function F x.graph (Function.LogSumExp dim) [x]).to_extends
      fun l hl =>
        builds_bind (builds_on F l hl _ [l]).to_extends fun b _ =>
          builds_add_function F x.graph Function.Subtract [x, b]

theorem builds_softmax (F : FunctionImpl) (x : Node) (dim : Nat) :
    Builds x.graph (node_ops.softmax F x dim) :=
  builds_bind (builds_log_softmax F x dim).to_extends fun y hy => builds_on F y hy _ [y]

theorem builds_softmax_cross_entropy (F : FunctionImpl) (x : Node) (dim : Nat)
    (ids : List Nat) : Builds x.graph (node_ops.softmax_cross_entropy F x dim ids) :=
  builds_bind (builds_log_softmax F x dim).to_extends fun y hy =>
    builds_bind (builds_on F y hy _ [y]).to_extends fun n hn => builds_on F n hn _ [n]

theorem builds_dropout_scaled_mask (F : FunctionImpl) (lhs_first : Bool) (x : Node) (p : ℚ) :
    Builds x.graph (dropout_scaled_mask F lhs_first x p) :=
  builds_bind
    (extends_unsequenced lhs_first
      (builds_add_function F x.graph (Function.MultiplyConst (1 / p)) [x]).to_extends
      (extends_bind (extends_shape x.graph x) fun s _ =>
        extends_bind (extends_device x.graph x) fun d _ =>
          (builds_add_function F x.graph (Function.RandomBernoulli s p d) []).to_extends))
    fun r hr => builds_on F r.1 hr.1 _ [r.1, r.2]

theorem invariant_dropout (F : FunctionImpl) (lhs_first : Bool) (x : Node) (rate : ℚ)
    (enabled : Bool) : KeepsInvariant x.graph (node_ops.dropout F lhs_first x rate enabled) := by
  cases enabled
  · simp only [node_ops.dropout, Bool.not_false, if_true]
    exact invariant_pure x.graph x
  · by_cases hr : rate = 1
    · simp only [node_ops.dropout, Bool.not_true, Bool.false_eq_true, if_false, hr, if_true]
      exact (builds_add_function F x.graph (Function.MultiplyConst 0) [x]).to_invariant
    · simp only [node_ops.dropout, Bool.not_true, Bool.false_eq_true, if_false, if_neg hr]
      exact (builds_dropout_scaled_mask F lhs_first x (1 - rate)).to_invariant

theorem builds_normalize_batched (F : FunctionImpl) (sub_lhs_first div_lhs_first : Bool)
    (x : Node) (scale : ℚ) :
    Builds x.graph
      (node_ops.batch.mean F x >>= fun m =>
        unsequenced sub_lhs_first
            (operator_mul F x x >>= fun xx => node_ops.batch.mean F xx)
            (operator_mul F m m) >>= fun r =>
          operator_sub F r.1 r.2 >>= fun d =>
            operator_mul_const_node F scale d >>= fun v =>
              unsequenced div_lhs_first
                  (operator_sub F x m)
                  (operator_add_node_const F v (1 / 100000000) >>= fun e => node_ops.sqrt F e)
                >>= fun q => operator_div F q.1 q.2) :=
  builds_bind (builds_batch_mean F x).to_extends fun m hm =>
    builds_bind
      (extends_unsequenced sub_lhs_first
        (extends_bind (builds_add_function F x.graph Function.Multiply [x, x]).to_extends
          fun xx hxx => by
            have := (builds_batch_mean F xx).to_extends
            rw [hxx] at this
            exact this)
        (builds_on F m hm Function.Multiply [m, m]).to_extends)
      fun r hr =>
        builds_bind (builds_on F r.1 hr.1 Function.Subtract [r.1, r.2]).to_extends fun d hd =>
          builds_bind (builds_on F d hd (Function.MultiplyConst scale) [d]).to_extends
            fun v hv =>
              builds_bind
                (extends_unsequenced div_lhs_first
                  (builds_add_function F x.graph Function.Subtract [x, m]).to_extends
                  (extends_bind
                    (builds_on F v hv (Function.AddConst (1 / 100000000)) [v]).to_extends
                    fun e he => (builds_on F e he Function.Sqrt [e]).to_extends))
                fun q hq => builds_on F q.1 hq.1 Function.Divide [q.1, q.2]

theorem invariant_normalize (F : FunctionImpl) (sub_lhs_first div_lhs_first : Bool) (x : Node) :
    KeepsInvariant x.graph (node_ops.batch.normalize F sub_lhs_first div_lhs_first x) := by
  unfold node_ops.batch.normalize
  refine invariant_bind (shape_keeps_heap x) fun s => ?_
  cases hb : s.has_batch
  · simp only [Bool.not_false, if_true]
    exact invariant_pure x.graph x
  · simp only [Bool.not_true, Bool.false_eq_true, if_false]
    refine invariant_bind (shape_keeps_heap x) fun s' => ?_
    exact (builds_normalize_batched F sub_lhs_first div_lhs_first x _).to_invariant

/-- C19: a successful call of any operator or `node_ops` function appends
steps only to the graph of its first node argument (the graph passed
explicitly, for a source function) and leaves the other graphs as they were;
every input of an appended step has a smaller step identity than the step
itself; and when at least one step is appended the returned node is the last
appended step, the greatest step identity of that graph after the call. -/
theorem calls_keep_graph_invariants (F : FunctionImpl) (c : Call) (h : Heap) (a : Node)
    (h' : Heap) (hrun : c.run F h = (Except.ok a, h')) :
    ∃ ss : List Step,
      h' = h.extend c.graph ss
        ∧ (∀ (j : Nat) (s : Step), ss[j]? = some s →
            ∀ i ∈ s.args, i < (h c.graph).length + j)
        ∧ (ss ≠ [] →
            a = ⟨c.graph, (h c.graph).length + ss.length - 1⟩
              ∧ a.id + 1 = (h' c.graph).length) := by
  have key : KeepsInvariant c.graph (c.run F) := by
    cases c
    case mean x dim => exact (builds_mean F x dim).to_invariant
    case log_softmax x dim => exact (builds_log_softmax F x dim).to_invariant
    case softmax x dim => exact (builds_softmax F x dim).to_invariant
    case softmax_cross_entropy x dim ids =>
      exact (builds_softmax_cross_entropy F x dim ids).to_invariant
    case dropout o x rate enabled => exact invariant_dropout F o x rate enabled
    case batch_mean x => exact (builds_batch_mean F x).to_invariant
    case batch_normalize o1 o2 x => exact invariant_normalize F o1 o2 x
    case input shape data dev g => exact (builds_add_function F g _ []).to_invariant
    case input_parameter param g => exact (builds_add_function F g _ []).to_invariant
    case bernoulli shape p dev g => exact (builds_add_function F g _ []).to_invariant
    case uniform shape lower upper dev g => exact (builds_add_function F g _ []).to_invariant
    case normal shape mu sd dev g => exact (builds_add_function F g _ []).to_invariant
    case log_normal shape mu sd dev g => exact (builds_add_function F g _ []).to_invariant
    all_goals exact (builds_add_function F _ _ _).to_invariant
  exact key h a h' hrun

theorem calls_keep_graph_invariants_witness :
    Call.run spec_impl (Call.softmax sample_node 1) sample_heap =
        (Except.ok ⟨0, 4⟩,
          sample_heap.extend 0
            [⟨Function.LogSumExp 1, [0], ⟨[2, 1], 2⟩, 0⟩,
              ⟨Function.Broadcast 1 3, [1], ⟨[2, 3], 2⟩, 0⟩,
              ⟨Function.Subtract, [0, 2], ⟨[2, 3], 2⟩, 0⟩,
              ⟨Function.Exp, [3], ⟨[2, 3], 2⟩, 0⟩])
      ∧ ∃ ss : List Step,
          sample_heap.extend 0
              [⟨Function.LogSumExp 1, [0], ⟨[2, 1], 2⟩, 0⟩,
                ⟨Function.Broadcast 1 3, [1], ⟨[2, 3], 2⟩, 0⟩,
                ⟨Function.Subtract, [0, 2], ⟨[2, 3], 2⟩, 0⟩,
                ⟨Function.Exp, [3], ⟨[2, 3], 2⟩, 0⟩]
            = sample_heap.extend (Call.softmax sample_node 1).graph ss
          ∧ (∀ (j : Nat) (s : Step), ss[j]? = some s →
              ∀ i ∈ s.args, i < (sample_heap (Call.softmax sample_node 1).graph).length + j)
          ∧ (ss ≠ [] →
              (⟨0, 4⟩ : Node) =
                  ⟨(Call.softmax sample_node 1).graph,
                    (sample_heap (Call.softmax sample_node 1).graph).length + ss.length - 1⟩
                ∧ (⟨0, 4⟩ : Node).id + 1 =
                  (sample_heap.extend 0
                    [⟨Function.LogSumExp 1, [0], ⟨[2, 1], 2⟩, 0⟩,
                      ⟨Function.Broadcast 1 3, [1], ⟨[2, 3], 2⟩, 0⟩,
                      ⟨Function.Subtract, [0, 2], ⟨[2, 3], 2⟩, 0⟩,
                      ⟨Function.Exp, [3], ⟨[2, 3], 2⟩, 0⟩]
                    (Call.softmax sample_node 1).graph).length) := by
  have hx : sample_node.lookup sample_heap sample_node.graph = some sample_input := rfl
  have hx' := fun ss => Node.lookup_extend_old (h := sample_heap) ss hx
  have h1 : spec_impl.forward_shape (Function.LogSumExp 1) [sample_input.shape]
      = some ⟨[2, 1], 2⟩ := rfl
  have h2 : spec_impl.forward_shape (Function.Broadcast 1 (sample_input.shape.get 1))
      [⟨[2, 1], 2⟩] = some ⟨[2, 3], 2⟩ := rfl
  have h3 : spec_impl.forward_shape Function.Subtract [sample_input.shape, ⟨[2, 3], 2⟩]
      = some ⟨[2, 3], 2⟩ := rfl
  have h4 : spec_impl.forward_shape Function.Exp [⟨[2, 3], 2⟩] = some ⟨[2, 3], 2⟩ := rfl
  have hrun : Call.run spec_impl (Call.softmax sample_node 1) sample_heap =
      (Except.ok ⟨0, 4⟩,
        sample_heap.extend 0
          [⟨Function.LogSumExp 1, [0], ⟨[2, 1], 2⟩, 0⟩,
            ⟨Function.Broadcast 1 3, [1], ⟨[2, 3], 2⟩, 0⟩,
            ⟨Function.Subtract, [0, 2], ⟨[2, 3], 2⟩, 0⟩,
            ⟨Function.Exp, [3], ⟨[2, 3], 2⟩, 0⟩]) := by
    simp only [Call.run, node_ops.softmax, node_ops.exp, node_ops.log_softmax,
      node_ops.logsumexp, node_ops.broadcast, operator_sub, h1, h2, h3, h4,
      run_bind, run_pure, add_function, gather, Node.shape, Node.device, hx, hx',
    Node.lookup_extend_new, Node.lookup_extend_last, Heap.extend_extend, Heap.extend_same,
    List.length_append, List.length_singleton, List.length_cons, List.length_nil,
    List.singleton_append, List.cons_append, List.nil_append, FunctionImpl.new_step_shape,
    List.map_cons, List.map_nil, List.getElem?_cons_zero, List.getElem?_cons_succ]
    rfl
  exact ⟨hrun,
    calls_keep_graph_invariants spec_impl (Call.softmax sample_node 1) sample_heap ⟨0, 4⟩ _ hrun⟩

/-! ## Values of the composite functions -/

theorem Index.set_set (i : Index) (dim a b : Nat) : (i.set dim a).set dim b = i.set dim b := by
  funext d
  by_cases hd : d = dim <;> simp [Index.set, hd]

theorem getD_append_old {α : Type} {l : List α} {i : Nat} {v : α} (r : List α) (d : α)
    (hv : l[i]? = some v) : (l ++ r).getD i d = v := by
  have hlt : i < l.length := by
    by_contra hge
    rw [List.getElem?_eq_none (Nat.le_of_not_lt hge)] at hv
    exact Option.noConfusion hv
  rw [List.getD_eq_getElem?_getD, List.getElem?_append_left hlt, hv]
  rfl

theorem getD_append_new {α : Type} (l r : List α) (j : Nat) (d : α) :
    (l ++ r).getD (l.length + j) d = r.getD j d := by
  rw [List.getD_eq_getElem?_getD, List.getD_eq_getElem?_getD,
    List.getElem?_append_right (Nat.le_add_right _ _), Nat.add_sub_cancel_left]

theorem getD_of_getElem? {α : Type} {l : List α} {i : Nat} {v : α} (d : α)
    (hv : l[i]? = some v) : l.getD i d = v := by
  rw [List.getD_eq_getElem?_getD, hv]
  rfl

theorem getD_append_length {α : Type} (l r : List α) (d : α) :
    (l ++ r).getD l.length d = r.getD 0 d :=
  getD_append_new l r 0 d

theorem drop_extend_same (h : Heap) (g : GraphPtr) (ss : List Step) :
    (h.extend g ss g).drop (h g).length = ss := by
  rw [Heap.extend_same, List.drop_left]

/-- C14: the expression built by `softmax(x, dim)`, that is
`exp(x − broadcast(logsumexp(x, dim), dim, size))`, evaluated over the reals,
sums to 1 along `dim` at every sample and every index of the other
dimensions, whatever the real values of `x`, for a dimension of positive
size. -/
theorem softmax_sums_to_one (F : FunctionImpl) (x : Node) (dim : Nat) (h : Heap)
    (st : Step) (s1 s2 s3 s4 : Shape) (src : Nat → Value) (earlier : List (Shape × Value))
    (X : Value) (hx : x.lookup h x.graph = some st)
    (h1 : F.forward_shape (Function.LogSumExp dim) [st.shape] = some s1)
    (h2 : F.forward_shape (Function.Broadcast dim (st.shape.get dim)) [s1] = some s2)
    (h3 : F.forward_shape Function.Subtract [st.shape, s2] = some s3)
    (h4 : F.forward_shape Function.Exp [s3] = some s4)
    (hpos : 0 < st.shape.get dim)
    (hlen : earlier.length = (h x.graph).length)
    (hX : earlier[x.id]? = some (st.shape, X)) :
    (node_ops.softmax F x dim h).1 = Except.ok ⟨x.graph, (h x.graph).length + 3⟩
      ∧ ∀ (b : Nat) (i : Index),
          ∑ j in Finset.range (st.shape.get dim),
            value_of src earlier (node_ops.softmax F x dim) h x.graph b (i.set dim j) = 1 := by
  have hx' := fun ss => Node.lookup_extend_old (h := h) ss hx
  have hXo := fun r d => getD_append_old (l := earlier) r d hX
  have hXe := fun d => getD_of_getElem? (l := earlier) d hX
  have hrun : node_ops.softmax F x dim h =
      (Except.ok ⟨x.graph, earlier.length + 3⟩,
        h.extend x.graph
          [F.new_step (Function.LogSumExp dim) [x.id] [st] s1,
            F.new_step (Function.Broadcast dim (st.shape.get dim)) [earlier.length]
              [F.new_step (Function.LogSumExp dim) [x.id] [st] s1] s2,
            F.new_step Function.Subtract [x.id, earlier.length + 1] [st,
              F.new_step (Function.Broadcast dim (st.shape.get dim)) [earlier.length]
                [F.new_step (Function.LogSumExp dim) [x.id] [st] s1] s2] s3,
            F.new_step Function.Exp [earlier.length + 2]
              [F.new_step Function.Subtract [x.id, earlier.length + 1] [st,
                F.new_step (Function.Broadcast dim (st.shape.get dim)) [earlier.length]
                  [F.new_step (Function.LogSumExp dim) [x.id] [st] s1] s2] s3] s4]) := by
    rw [hlen]
    simp only [node_ops.softmax, node_ops.exp, node_ops.log_softmax, node_ops.logsumexp,
      node_ops.broadcast, operator_sub, h1, h2, h3, h4,
      run_bind, run_pure, add_function, gather, Node.shape, Node.device, hx, hx',
      Node.lookup_extend_new, Node.lookup_extend_last, Heap.extend_extend, Heap.extend_same,
      List.length_append, List.length_singleton, List.length_cons, List.length_nil,
      List.singleton_append, List.cons_append, List.nil_append, FunctionImpl.new_step_shape,
      List.map_cons, List.map_nil, List.getElem?_cons_zero, List.getElem?_cons_succ]
  refine ⟨by rw [hrun, hlen], ?_⟩
  intro b i
  simp only [value_of, hrun, drop_extend_same, eval_steps, FunctionImpl.new_step, List.map_cons,
    List.map_nil, hXo, hXe, Function.forward, List.append_assoc, List.singleton_append,
    List.cons_append, List.nil_append, getD_append_new, getD_append_length,
    List.length_append, List.length_cons, List.length_nil, List.getD_cons_zero,
    List.getD_cons_succ, Index.set_set]
  have hS : 0 < ∑ k in Finset.range (st.shape.get dim), Real.exp (X b (i.set dim k)) :=
    Finset.sum_pos (fun k _ => Real.exp_pos _)
      (Finset.nonempty_range_iff.mpr (Nat.pos_iff_ne_zero.mp hpos))
  simp only [Real.exp_sub, Real.exp_log hS]
  rw [← Finset.sum_div]
  exact div_self (ne_of_gt hS)

theorem softmax_sums_to_one_witness :
    sample_node.lookup sample_heap sample_node.graph = some sample_input
      ∧ spec_impl.forward_shape (Function.LogSumExp 1) [sample_input.shape] = some ⟨[2, 1], 2⟩
      ∧ spec_impl.forward_shape (Function.Broadcast 1 (sample_input.shape.get 1)) [⟨[2, 1], 2⟩]
          = some ⟨[2, 3], 2⟩
      ∧ spec_impl.forward_shape Function.Subtract [sample_input.shape, ⟨[2, 3], 2⟩]
          = some ⟨[2, 3], 2⟩
      ∧ spec_impl.forward_shape Function.Exp [⟨[2, 3], 2⟩] = some ⟨[2, 3], 2⟩
      ∧ 0 < sample_input.shape.get 1
      ∧ [(sample_input.shape, ramp_samples)].length = (sample_heap sample_node.graph).length
      ∧ [(sample_input.shape, ramp_samples)][sample_node.id]?
          = some (sample_input.shape, ramp_samples)
      ∧ ((node_ops.softmax spec_impl sample_node 1 sample_heap).1 = Except.ok ⟨0, 4⟩
          ∧ ∀ (b : Nat) (i : Index),
              ∑ j in Finset.range (sample_input.shape.get 1),
                value_of (fun _ => ramp_samples) [(sample_input.shape, ramp_samples)]
                  (node_ops.softmax spec_impl sample_node 1) sample_heap sample_node.graph b
                  (i.set 1 j) = 1) :=
  ⟨rfl, rfl, rfl, rfl, rfl, by decide, rfl, rfl,
    softmax_sums_to_one spec_impl sample_node 1 sample_heap sample_input
      ⟨[2, 1], 2⟩ ⟨[2, 3], 2⟩ ⟨[2, 3], 2⟩ ⟨[2, 3], 2⟩ (fun _ => ramp_samples)
      [(sample_input.shape, ramp_samples)] ramp_samples rfl rfl rfl rfl rfl (by decide) rfl rfl⟩

theorem bernoulli_draw_one {v : ℝ} (hv : bernoulli_draw 1 v) : v = 1 := by
  rcases hv with ⟨h1, _⟩ | ⟨_, h2⟩
  · exact h1
  · exact absurd h2 (lt_irrefl 1)

/-- C15: with rate 0 and `enabled = true`, `dropout` does not return early:
it appends the three steps of the scaled-mask expression, with scaling
constant exactly 1 and Bernoulli probability exactly 1.  A draw of that source
can only be 1, so the mask is 1 everywhere and the value of the result is the
value of `x`. -/
theorem dropout_rate_zero_keeps_value (F : FunctionImpl) (lhs_first : Bool) (x : Node)
    (h : Heap) (st : Step) (s1 s2 s3 : Shape) (src : Nat → Value)
    (earlier : List (Shape × Value)) (X : Value)
    (hx : x.lookup h x.graph = some st)
    (h1 : F.forward_shape (Function.MultiplyConst 1) [st.shape] = some s1)
    (h2 : F.forward_shape (Function.RandomBernoulli st.shape 1 st.device) [] = some s2)
    (h3 : F.forward_shape Function.Multiply [s1, s2] = some s3)
    (hlen : earlier.length = (h x.graph).length)
    (hX : earlier[x.id]? = some (st.shape, X))
    (hdraw : ∀ (b : Nat) (i : Index),
      bernoulli_draw 1 (src (if lhs_first then (h x.graph).length + 1 else (h x.graph).length) b i)) :
    let n := (h x.graph).length
    let scaled := F.new_step (Function.MultiplyConst 1) [x.id] [st] s1
    let mask := F.new_step (Function.RandomBernoulli st.shape 1 st.device) [] [] s2
    node_ops.dropout F lhs_first x 0 true h =
        (Except.ok ⟨x.graph, n + 2⟩,
          h.extend x.graph
            (if lhs_first then
              [scaled, mask, F.new_step Function.Multiply [n, n + 1] [scaled, mask] s3]
            else
              [mask, scaled, F.new_step Function.Multiply [n + 1, n] [scaled, mask] s3]))
      ∧ dropout_divisor 0 true = some 1
      ∧ (1 / (1 - 0) : ℚ) = 1
      ∧ (∀ (b : Nat) (i : Index), src (if lhs_first then n + 1 else n) b i = 1)
      ∧ ∀ (b : Nat) (i : Index),
          value_of src earlier (node_ops.dropout F lhs_first x 0 true) h x.graph b i
            = X b i := by
  intro n scaled mask
  have hx' := fun ss => Node.lookup_extend_old (h := h) ss hx
  have hXo := fun r d => getD_append_old (l := earlier) r d hX
  have hXe := fun d => getD_of_getElem? (l := earlier) d hX
  have hone : ∀ (b : Nat) (i : Index), src (if lhs_first then n + 1 else n) b i = 1 :=
    fun b i => bernoulli_draw_one (hdraw b i)
  have hrun : node_ops.dropout F lhs_first x 0 true h =
      (Except.ok ⟨x.graph, n + 2⟩,
        h.extend x.graph
          (if lhs_first then
            [scaled, mask, F.new_step Function.Multiply [n, n + 1] [scaled, mask] s3]
          else
            [mask, scaled, F.new_step Function.Multiply [n + 1, n] [scaled, mask] s3])) := by
    cases lhs_first <;>
    simp only [node_ops.dropout, node_ops.random.bernoulli, operator_mul_const_node,
      operator_mul, unsequenced, Bool.not_true, Bool.false_eq_true, if_false, if_true,
      if_neg (zero_ne_one : (0 : ℚ) ≠ 1), sub_zero, div_one, h1, h2, h3, n, scaled, mask,
      run_bind, run_pure, add_function, gather, Node.shape, Node.device, hx, hx',
      Node.lookup_extend_new, Node.lookup_extend_last, Heap.extend_extend, Heap.extend_same,
      List.length_append, List.length_singleton, List.length_cons, List.length_nil,
      List.singleton_append, List.cons_append, List.nil_append, FunctionImpl.new_step_shape,
      List.map_cons, List.map_nil, List.getElem?_cons_zero, List.getElem?_cons_succ]
  refine ⟨hrun, ?_, by norm_num, hone, ?_⟩
  · simp [dropout_divisor]
  · intro b i
    simp only [n, scaled, mask, ← hlen] at hrun hone
    cases lhs_first
    all_goals
      simp only [Bool.false_eq_true, if_false, if_true] at hrun hone
      simp only [value_of, hrun, drop_extend_same, eval_steps, FunctionImpl.new_step,
        List.map_cons, List.map_nil, hXo, hXe, Function.forward, List.append_assoc,
        List.singleton_append, List.cons_append, List.nil_append, getD_append_new,
        getD_append_length, List.length_append, List.length_cons, List.length_nil,
        List.getD_cons_zero, List.getD_cons_succ, hone, Rat.cast_one, one_mul, mul_one]

theorem dropout_rate_zero_witness :
    sample_node.lookup sample_heap sample_node.graph = some sample_input
      ∧ spec_impl.forward_shape (Function.MultiplyConst 1) [sample_input.shape]
          = some ⟨[2, 3], 2⟩
      ∧ spec_impl.forward_shape
          (Function.RandomBernoulli sample_input.shape 1 sample_input.device) []
          = some ⟨[2, 3], 2⟩
      ∧ spec_impl.forward_shape Function.Multiply [⟨[2, 3], 2⟩, ⟨[2, 3], 2⟩] = some ⟨[2, 3], 2⟩
      ∧ [(sample_input.shape, ramp_samples)].length = (sample_heap sample_node.graph).length
      ∧ [(sample_input.shape, ramp_samples)][sample_node.id]?
          = some (sample_input.shape, ramp_samples)
      ∧ (∀ (b : Nat) (i : Index),
          bernoulli_draw 1
            (all_ones
              (if true then (sample_heap sample_node.graph).length + 1
                else (sample_heap sample_node.graph).length) b i))
      ∧ (node_ops.dropout spec_impl true sample_node 0 true sample_heap =
            (Except.ok ⟨0, 3⟩,
              sample_heap.extend 0
                [⟨Function.MultiplyConst 1, [0], ⟨[2, 3], 2⟩, 0⟩,
                  ⟨Function.RandomBernoulli ⟨[2, 3], 2⟩ 1 0, [], ⟨[2, 3], 2⟩, 0⟩,
                  ⟨Function.Multiply, [1, 2], ⟨[2, 3], 2⟩, 0⟩])
          ∧ dropout_divisor 0 true = some 1
          ∧ (1 / (1 - 0) : ℚ) = 1
          ∧ (∀ (b : Nat) (i : Index), all_ones 2 b i = 1)
          ∧ ∀ (b : Nat) (i : Index),
              value_of all_ones [(sample_input.shape, ramp_samples)]
                (node_ops.dropout spec_impl true sample_node 0 true) sample_heap
                sample_node.graph b i = ramp_samples b i) :=
  ⟨rfl, rfl, rfl, rfl, rfl, rfl, fun _ _ => Or.inl ⟨rfl, by norm_num⟩,
    dropout_rate_zero_keeps_value spec_impl true sample_node sample_heap sample_input
      ⟨[2, 3], 2⟩ ⟨[2, 3], 2⟩ ⟨[2, 3], 2⟩ all_ones [(sample_input.shape, ramp_samples)]
      ramp_samples rfl rfl rfl rfl rfl rfl fun _ _ => Or.inl ⟨rfl, by norm_num⟩⟩

/-! ## Rounding to binary floating point -/

theorem floor_le_round_half_even (q : ℚ) : ⌊q⌋ ≤ round_half_even q := by
  unfold round_half_even
  split_ifs <;> omega

theorem le_round_half_even {n : ℤ} {q : ℚ} (h : (n : ℚ) ≤ q) : n ≤ round_half_even q :=
  le_trans (Int.le_floor.mpr h) (floor_le_round_half_even q)

theorem round_half_even_le {n : ℤ} {q : ℚ} (h : q ≤ (n : ℚ)) : round_half_even q ≤ n := by
  have hfl : (⌊q⌋ : ℚ) ≤ q := Int.floor_le q
  have hfn : ⌊q⌋ ≤ n := by exact_mod_cast le_trans hfl h
  unfold round_half_even
  split_ifs with h1 h2 h3
  · exact hfn
  · have hlt : (⌊q⌋ : ℚ) < n := by linarith
    have : ⌊q⌋ < n := by exact_mod_cast hlt
    omega
  · exact hfn
  · have hlt : (⌊q⌋ : ℚ) < n := by linarith
    have : ⌊q⌋ < n := by exact_mod_cast hlt
    omega

theorem round_half_even_tie_even {n : ℤ} {q : ℚ} (hn : n % 2 = 0) (h1 : (n : ℚ) ≤ q)
    (h2 : q ≤ (n : ℚ) + 1 / 2) : round_half_even q = n := by
  have hfl : ⌊q⌋ = n := by
    rw [Int.floor_eq_iff]
    constructor
    · exact h1
    · linarith
  unfold round_half_even
  rw [hfl]
  split_ifs with h3 h4
  · rfl
  · linarith
  · rfl

theorem succ_le_round_half_even {n : ℤ} {q : ℚ} (h : (n : ℚ) + 1 / 2 < q) :
    n + 1 ≤ round_half_even q := by
  have hfn : n ≤ ⌊q⌋ := Int.le_floor.mpr (by linarith)
  rcases lt_or_eq_of_le hfn with hlt | heq
  · have := floor_le_round_half_even q
    omega
  · unfold round_half_even
    rw [← heq]
    split_ifs with h3 h4
    · linarith
    · rfl
    · linarith
    · rfl

theorem int_log_two_of_unit {q : ℚ} (h1 : 1 ≤ q) (h2 : q < 2) : Int.log 2 |q| = 0 := by
  have hq : |q| = q := abs_of_nonneg (by linarith)
  rw [hq, Int.log_of_one_le_right 2 h1]
  have hfl : ⌊q⌋₊ = 1 := by
    rw [Nat.floor_eq_iff (by linarith)]
    constructor
    · exact_mod_cast h1
    · norm_num
      linarith
  rw [hfl]
  simp

theorem round_binary_of_unit (p : Nat) (hp : 1 ≤ p) {q : ℚ} (h1 : 1 ≤ q) (h2 : q < 2) :
    round_binary p q = (round_half_even (q * 2 ^ (p - 1)) : ℚ) / 2 ^ (p - 1) := by
  have hq0 : q ≠ 0 := by linarith
  have hexp : (0 : ℤ) - ((p : ℤ) - 1) = -((p - 1 : ℕ) : ℤ) := by omega
  unfold round_binary
  rw [if_neg hq0, int_log_two_of_unit h1 h2, hexp, zpow_neg, zpow_natCast, div_inv_eq_mul]
  rfl

theorem round_binary_two (p : Nat) (hp : 1 ≤ p) : round_binary p 2 = 2 := by
  have hlog : Int.log 2 |(2 : ℚ)| = 1 := by
    rw [abs_of_nonneg (by norm_num : (0 : ℚ) ≤ 2), Int.log_of_one_le_right 2 (by norm_num)]
    have hfl : ⌊(2 : ℚ)⌋₊ = 2 := by
      rw [Nat.floor_eq_iff (by norm_num)]
      norm_num
    rw [hfl]
    exact_mod_cast Nat.log_eq_of_pow_le_of_lt_pow (by norm_num) (by norm_num)
  obtain ⟨k, rfl⟩ : ∃ k, p = k + 1 := ⟨p - 1, by omega⟩
  have hexp : (1 : ℤ) - (((k + 1 : ℕ) : ℤ) - 1) = -((k : ℤ) - 1) := by push_cast; ring
  unfold round_binary
  rw [if_neg (by norm_num), hlog, hexp, zpow_neg, div_inv_eq_mul]
  have hval : (2 : ℚ) * 2 ^ ((k : ℤ) - 1) = ((2 ^ k : ℤ) : ℚ) := by
    rw [zpow_sub₀ (by norm_num), zpow_natCast, zpow_one]
    push_cast
    field_simp
  have hint : round_half_even (((2 ^ k : ℤ) : ℚ)) = 2 ^ k :=
    le_antisymm (round_half_even_le (le_refl _)) (le_round_half_even (le_refl _))
  rw [hval, hint, zpow_sub₀ (by norm_num), zpow_natCast, zpow_one]
  push_cast
  field_simp

theorem round_binary_unit_bounds (p : Nat) (hp : 1 ≤ p) {q : ℚ} (h1 : 1 ≤ q) (h2 : q ≤ 2) :
    1 ≤ round_binary p q ∧ round_binary p q ≤ 2 := by
  rcases lt_or_eq_of_le h2 with hlt | heq
  · rw [round_binary_of_unit p hp h1 hlt]
    have hU : (0 : ℚ) < 2 ^ (p - 1) := by positivity
    have hlo : ((2 ^ (p - 1) : ℤ) : ℚ) ≤ q * 2 ^ (p - 1) := by
      push_cast
      nlinarith
    have hhi : q * 2 ^ (p - 1) ≤ ((2 * 2 ^ (p - 1) : ℤ) : ℚ) := by
      push_cast
      nlinarith
    have hl := le_round_half_even hlo
    have hh := round_half_even_le hhi
    have hl' : ((2 ^ (p - 1) : ℤ) : ℚ) ≤ (round_half_even (q * 2 ^ (p - 1)) : ℚ) := by
      exact_mod_cast hl
    have hh' : (round_half_even (q * 2 ^ (p - 1)) : ℚ) ≤ ((2 * 2 ^ (p - 1) : ℤ) : ℚ) := by
      exact_mod_cast hh
    push_cast at hl' hh'
    constructor
    · rw [le_div_iff₀ hU]
      linarith
    · rw [div_le_iff₀ hU]
      linarith
  · rw [heq, round_binary_two p hp]
    norm_num

theorem normalize_scale_float_bounds {b : Nat} (hb : 2 ≤ b) :
    1 ≤ normalize_scale_float b ∧ normalize_scale_float b ≤ 2 := by
  have hb' : (2 : ℚ) ≤ b := by exact_mod_cast hb
  have hd : (0 : ℚ) < (b : ℚ) - 1 := by linarith
  have hq1 : 1 ≤ (b : ℚ) / ((b : ℚ) - 1) := by
    rw [le_div_iff₀ hd]
    linarith
  have hq2 : (b : ℚ) / ((b : ℚ) - 1) ≤ 2 := by
    rw [div_le_iff₀ hd]
    linarith
  obtain ⟨hd1, hd2⟩ := round_binary_unit_bounds 53 (by norm_num) hq1 hq2
  exact round_binary_unit_bounds 24 (by norm_num) hd1 hd2

theorem normalize_scale_float_eq_one {b : Nat} (hb : 16777217 ≤ b) :
    normalize_scale_float b = 1 := by
  have hb' : (16777217 : ℚ) ≤ b := by exact_mod_cast hb
  have hd : (0 : ℚ) < (b : ℚ) - 1 := by linarith
  have hq1 : 1 ≤ (b : ℚ) / ((b : ℚ) - 1) := by
    rw [le_div_iff₀ hd]
    linarith
  have hq2 : (b : ℚ) / ((b : ℚ) - 1) ≤ 1 + 1 / 16777216 := by
    rw [div_le_iff₀ hd]
    linarith
  have hlo : ((4503599627370496 : ℤ) : ℚ) ≤ (b : ℚ) / ((b : ℚ) - 1) * 2 ^ (53 - 1) := by
    norm_num
    linarith
  have hhi : (b : ℚ) / ((b : ℚ) - 1) * 2 ^ (53 - 1) ≤ ((4503599895805952 : ℤ) : ℚ) := by
    norm_num
    linarith
  have hl : ((4503599627370496 : ℤ) : ℚ)
      ≤ (round_half_even ((b : ℚ) / ((b : ℚ) - 1) * 2 ^ (53 - 1)) : ℚ) := by
    exact_mod_cast le_round_half_even hlo
  have hh : (round_half_even ((b : ℚ) / ((b : ℚ) - 1) * 2 ^ (53 - 1)) : ℚ)
      ≤ ((4503599895805952 : ℤ) : ℚ) := by
    exact_mod_cast round_half_even_le hhi
  have hdbl : round_binary 53 ((b : ℚ) / ((b : ℚ) - 1))
      = (round_half_even ((b : ℚ) / ((b : ℚ) - 1) * 2 ^ (53 - 1)) : ℚ) / 2 ^ (53 - 1) :=
    round_binary_of_unit 53 (by norm_num) hq1 (by linarith)
  have hd1 : 1 ≤ round_binary 53 ((b : ℚ) / ((b : ℚ) - 1)) := by
    rw [hdbl, le_div_iff₀ (by positivity)]
    norm_num at hl ⊢
    linarith
  have hd2 : round_binary 53 ((b : ℚ) / ((b : ℚ) - 1)) ≤ 1 + 1 / 16777216 := by
    rw [hdbl, div_le_iff₀ (by positivity)]
    norm_num at hh ⊢
    linarith
  unfold normalize_scale_float
  rw [round_binary_of_unit 24 (by norm_num) hd1 (by linarith),
    round_half_even_tie_even (n := 8388608) (by norm_num)
      (by norm_num; linarith) (by norm_num; linarith)]
  norm_num

theorem normalize_scale_float_gt_one {b : Nat} (hb : 2 ≤ b) (hb2 : b ≤ 16777216) :
    1 < normalize_scale_float b := by
  rcases Nat.lt_or_ge b 3 with hlt | hge
  · have hb2 : b = 2 := by omega
    subst hb2
    have hq : ((2 : ℕ) : ℚ) / (((2 : ℕ) : ℚ) - 1) = 2 := by norm_num
    unfold normalize_scale_float
    rw [hq, round_binary_two 53 (by norm_num), round_binary_two 24 (by norm_num)]
    norm_num
  · have hb3 : (3 : ℚ) ≤ b := by exact_mod_cast hge
    have hb4 : (b : ℚ) ≤ 16777216 := by exact_mod_cast hb2
    have hd : (0 : ℚ) < (b : ℚ) - 1 := by linarith
    have hq1 : 1 + 1 / 16777215 ≤ (b : ℚ) / ((b : ℚ) - 1) := by
      rw [le_div_iff₀ hd]
      linarith
    have hq2 : (b : ℚ) / ((b : ℚ) - 1) ≤ 3 / 2 := by
      rw [div_le_iff₀ hd]
      linarith
    have hlo : ((4503599895805968 : ℤ) : ℚ) ≤ (b : ℚ) / ((b : ℚ) - 1) * 2 ^ (53 - 1) := by
      norm_num
      linarith
    have hhi : (b : ℚ) / ((b : ℚ) - 1) * 2 ^ (53 - 1) ≤ ((6755399441055744 : ℤ) : ℚ) := by
      norm_num
      linarith
    have hl : ((4503599895805968 : ℤ) : ℚ)
        ≤ (round_half_even ((b : ℚ) / ((b : ℚ) - 1) * 2 ^ (53 - 1)) : ℚ) := by
      exact_mod_cast le_round_half_even hlo
    have hh : (round_half_even ((b : ℚ) / ((b : ℚ) - 1) * 2 ^ (53 - 1)) : ℚ)
        ≤ ((6755399441055744 : ℤ) : ℚ) := by
      exact_mod_cast round_half_even_le hhi
    have hdbl : round_binary 53 ((b : ℚ) / ((b : ℚ) - 1))
        = (round_half_even ((b : ℚ) / ((b : ℚ) - 1) * 2 ^ (53 - 1)) : ℚ) / 2 ^ (53 - 1) :=
      round_binary_of_unit 53 (by norm_num) (by linarith) (by linarith)
    have hd1 : 1 + 1 / 16777216 + 1 / 281474976710656
        ≤ round_binary 53 ((b : ℚ) / ((b : ℚ) - 1)) := by
      rw [hdbl, le_div_iff₀ (by positivity)]
      norm_num at hl ⊢
      linarith
    have hd2 : round_binary 53 ((b : ℚ) / ((b : ℚ) - 1)) ≤ 3 / 2 := by
      rw [hdbl, div_le_iff₀ (by positivity)]
      norm_num at hh ⊢
      linarith
    unfold normalize_scale_float
    rw [round_binary_of_unit 24 (by norm_num) (by linarith) (by linarith)]
    have hup : (8388608 : ℤ) + 1
        ≤ round_half_even (round_binary 53 ((b : ℚ) / ((b : ℚ) - 1)) * 2 ^ (24 - 1)) :=
      succ_le_round_half_even (by norm_num; linarith)
    have hup' : (((8388608 : ℤ) + 1 : ℤ) : ℚ)
        ≤ (round_half_even (round_binary 53 ((b : ℚ) / ((b : ℚ) - 1)) * 2 ^ (24 - 1)) : ℚ) := by
      exact_mod_cast hup
    rw [lt_div_iff₀ (by positivity)]
    norm_num at hup' ⊢
    linarith

/-- C17, as amended: the factor `scale = b / (b - 1)` of `batch::normalize`
is computed only for a shape with a batch, that is `b ≥ 2` (without one the
call returns `x`); its divisor `b - 1` is at least 1 and not zero; the exact
quotient is strictly greater than 1 and at most 2; the `float` stored in
`scale` is at least 1 and at most 2, and it is strictly greater than 1
exactly when `b ≤ 2^24`: for a larger batch it rounds to 1. -/
theorem normalize_scale_is_between_one_and_two (s : Shape) (d : ℚ)
    (hd : normalize_scale_divisor s = some d) :
    2 ≤ s.batch_size
      ∧ d = (s.batch_size : ℚ) - 1
      ∧ 1 ≤ d
      ∧ d ≠ 0
      ∧ 1 < (s.batch_size : ℚ) / d
      ∧ (s.batch_size : ℚ) / d ≤ 2
      ∧ 1 ≤ normalize_scale_float s.batch_size
      ∧ normalize_scale_float s.batch_size ≤ 2
      ∧ (1 < normalize_scale_float s.batch_size ↔ s.batch_size ≤ 16777216)
      ∧ ∀ (F : FunctionImpl) (sub_lhs_first div_lhs_first : Bool) (x : Node) (h : Heap)
          (st : Step), x.lookup h x.graph = some st →
          normalize_scale_divisor st.shape = none →
          node_ops.batch.normalize F sub_lhs_first div_lhs_first x h = (Except.ok x, h) := by
  have hlink : ∀ (F : FunctionImpl) (sub_lhs_first div_lhs_first : Bool) (x : Node) (h : Heap)
      (st : Step), x.lookup h x.graph = some st →
      normalize_scale_divisor st.shape = none →
      node_ops.batch.normalize F sub_lhs_first div_lhs_first x h = (Except.ok x, h) := by
    intro F o1 o2 x h st hx hnone
    have hnb : st.shape.has_batch = false := by
      cases hhb : st.shape.has_batch
      · rfl
      · simp [normalize_scale_divisor, hhb] at hnone
    simp only [node_ops.batch.normalize, run_bind, Node.shape, hx, hnb, Bool.not_false, if_true]
    rfl
  cases hhb : s.has_batch
  · simp [normalize_scale_divisor, hhb] at hd
  · simp only [normalize_scale_divisor, hhb, Bool.not_true, Bool.false_eq_true, if_false,
      Option.some.injEq] at hd
    have hb : 2 ≤ s.batch_size := by
      simp only [Shape.has_batch, decide_eq_true_eq] at hhb
      exact hhb
    have hb' : (2 : ℚ) ≤ s.batch_size := by exact_mod_cast hb
    subst hd
    have hpos : (0 : ℚ) < (s.batch_size : ℚ) - 1 := by linarith
    refine ⟨hb, rfl, by linarith, ne_of_gt hpos, ?_, ?_, (normalize_scale_float_bounds hb).1,
      (normalize_scale_float_bounds hb).2, ?_, hlink⟩
    · rw [lt_div_iff₀ hpos]
      linarith
    · rw [div_le_iff₀ hpos]
      linarith
    · constructor
      · intro hgt
        by_contra hbig
        have := normalize_scale_float_eq_one (b := s.batch_size) (by omega)
        rw [this] at hgt
        exact lt_irrefl 1 hgt
      · exact normalize_scale_float_gt_one hb

theorem normalize_scale_witness :
    normalize_scale_divisor sample_input.shape = some 1
      ∧ (2 ≤ sample_input.shape.batch_size
          ∧ (1 : ℚ) = (sample_input.shape.batch_size : ℚ) - 1
          ∧ (1 : ℚ) ≤ 1
          ∧ (1 : ℚ) ≠ 0
          ∧ 1 < (sample_input.shape.batch_size : ℚ) / 1
          ∧ (sample_input.shape.batch_size : ℚ) / 1 ≤ 2
          ∧ 1 ≤ normalize_scale_float sample_input.shape.batch_size
          ∧ normalize_scale_float sample_input.shape.batch_size ≤ 2
          ∧ (1 < normalize_scale_float sample_input.shape.batch_size
              ↔ sample_input.shape.batch_size ≤ 16777216)
          ∧ ∀ (F : FunctionImpl) (sub_lhs_first div_lhs_first : Bool) (x : Node) (h : Heap)
              (st : Step), x.lookup h x.graph = some st →
              normalize_scale_divisor st.shape = none →
              node_ops.batch.normalize F sub_lhs_first div_lhs_first x h
                = (Except.ok x, h)) :=
  have hd : normalize_scale_divisor sample_input.shape = some 1 := by
    norm_num [normalize_scale_divisor, Shape.has_batch, Shape.batch_size, sample_input]
  ⟨hd, normalize_scale_is_between_one_and_two sample_input.shape 1 hd⟩

/-- C17 as stated fails: for the batch size `2^25` the divisor is
`2^25 - 1`, and the quotient, `1 + 2^-25` and a little, rounds to the `float`
1, so the stored `scale` is not strictly greater than 1. -/
theorem normalize_scale_rounds_to_one :
    normalize_scale_divisor ⟨[2, 3], 33554432⟩ = some 33554431
      ∧ normalize_scale_float 33554432 = 1
      ∧ ¬ 1 < normalize_scale_float 33554432 := by
  have h1 : normalize_scale_float 33554432 = 1 :=
    normalize_scale_float_eq_one (b := 33554432) (by norm_num)
  refine ⟨?_, h1, ?_⟩
  · norm_num [normalize_scale_divisor, Shape.has_batch, Shape.batch_size]
  · rw [h1]
    exact lt_irrefl 1

end primitiv
